import Mathlib

/-
Verification of the ITS event-detection / priority-dispatch / tiered-caching
pipeline.  Python floats and `datetime` values are embedded as exact rationals
(`ℚ`, POSIX seconds for datetimes); machine-level float rounding is outside the
scope of the verified properties.  Fallible Python code (raising exceptions)
is embedded in `Except PyErr`.
-/

namespace ITS

/-- Exceptions that the embedded code can raise. -/
inductive PyErr where
  | typeError
  | indexError
  | stopIteration
deriving DecidableEq, Repr

/- ===================== data_collector.py ===================== -/

namespace DataCollector

/-- `TrafficDataPoint` from `data_collector.py` (floats and datetimes as `ℚ`,
`avg_speed : Optional[float]` as `Option ℚ`). -/
structure TrafficDataPoint where
  timestamp : ℚ
  location_lng : ℚ
  location_lat : ℚ
  radius_km : ℚ
  total_roads : Nat
  congested_roads : Nat
  slow_roads : Nat
  clear_roads : Nat
  avg_speed : Option ℚ
  congestion_ratio : ℚ
  raw_data : String
  data_quality_score : ℚ := 1
  is_anomaly : Bool := false
deriving DecidableEq, Repr

/-- Python truthiness of the `Optional[float]` field `avg_speed`: falsy when
`None` and when `0.0` (the code guards the speed rule with `if data.avg_speed:`). -/
def speedTruthy : Option ℚ → Bool
  | none => false
  | some v => decide (v ≠ 0)

/-- `DataQualityChecker.check_data_quality` from `data_collector.py`.
`speed_limits = (min 5, max 120)`, `congestion_limits = (0.0, 1.0)`; the
current time `datetime.utcnow()` is the explicit parameter `now`. -/
def check_data_quality (data : TrafficDataPoint) (now : ℚ) : ℚ :=
  let q1 : ℚ := 1
  let q2 :=
    if speedTruthy data.avg_speed then
      if data.avg_speed.getD 0 < 5 ∨ 120 < data.avg_speed.getD 0 then q1 * (1/2) else q1
    else q1
  let q3 := if data.congestion_ratio < 0 ∨ 1 < data.congestion_ratio then q2 * (1/2) else q2
  let q4 := if data.total_roads = 0 then q3 * (3/10) else q3
  let q5 :=
    if now < data.timestamp then q4 * (1/10)
    else if 3600 < now - data.timestamp then q4 * (4/5)
    else q4
  max 0 q5

/-- Variant of `check_data_quality` with the congestion-ratio rule removed,
used only to express the amended form of the multiplicative-penalty claim
(the congestion ratio is a non-optional field, so "the same observation
without that field" is expressed by deleting the rule instead). -/
def check_data_quality_noCongestionRule (data : TrafficDataPoint) (now : ℚ) : ℚ :=
  let q1 : ℚ := 1
  let q2 :=
    if speedTruthy data.avg_speed then
      if data.avg_speed.getD 0 < 5 ∨ 120 < data.avg_speed.getD 0 then q1 * (1/2) else q1
    else q1
  let q4 := if data.total_roads = 0 then q2 * (3/10) else q2
  let q5 :=
    if now < data.timestamp then q4 * (1/10)
    else if 3600 < now - data.timestamp then q4 * (4/5)
    else q4
  max 0 q5

end DataCollector

/- ===================== enhanced_data_collector.py (fusion engine) ===================== -/

namespace Fusion

open DataCollector

/-- `TrafficAccident` from `web_scraper.py` (the fields consumed by the fusion
engine; floats and datetimes as `ℚ`). -/
structure TrafficAccident where
  accident_id : String
  title : String
  description : String
  location : String
  lng : Option ℚ := none
  lat : Option ℚ := none
  accident_time : Option ℚ := none
  severity : String := "未知"
  accident_type : String := "未知"
  casualties : Nat := 0
  vehicles_involved : Nat := 0
  road_condition : String := "未知"
  weather_condition : String := "未知"
  source : String := ""
  url : String := ""
  raw_content : String := ""
  collected_at : ℚ := 0
  confidence_score : ℚ := 1
deriving DecidableEq, Repr

/-- `EnhancedTrafficData` from `enhanced_data_collector.py`. -/
structure EnhancedTrafficData where
  traffic_data : Option TrafficDataPoint
  accidents : List TrafficAccident
  sources : List String
  collected_at : ℚ
  overall_quality_score : ℚ
  has_emergency : Bool
  completeness_score : ℚ
deriving DecidableEq, Repr

/-- One iteration of the best-observation selection loop of
`DataFusionEngine.fuse_data`: `if quality_score > best_quality_score:` take it. -/
def selectBestStep (now : ℚ) (acc : Option TrafficDataPoint × ℚ)
    (td : TrafficDataPoint) : Option TrafficDataPoint × ℚ :=
  let s := check_data_quality td now
  if acc.2 < s then (some td, s) else acc

/-- The best-observation selection loop of `DataFusionEngine.fuse_data`:
`best_traffic_data = None; best_quality_score = 0.0`, then the loop. -/
def selectBest (l : List TrafficDataPoint) (now : ℚ) : Option TrafficDataPoint × ℚ :=
  l.foldl (selectBestStep now) (none, 0)

/-- The source-list accumulation of `fuse_data`: start from the given list and
append each accident source not already present. -/
def addSources (sources : List String) (accidents : List TrafficAccident) : List String :=
  accidents.foldl (fun srcs a => if a.source ∈ srcs then srcs else srcs ++ [a.source]) sources

/-- `DataFusionEngine._calculate_completeness`. -/
def calculate_completeness (traffic_data : Option TrafficDataPoint)
    (accidents : List TrafficAccident) : ℚ :=
  let score : ℚ := 0
  let score := score +
    (match traffic_data with
     | none => 0
     | some t =>
       (if t.avg_speed.isSome then (1/10 : ℚ) else 0) +
       (if 0 < t.congestion_ratio then (1/10 : ℚ) else 0) +
       (if 0 < t.total_roads then (1/10 : ℚ) else 0) +
       (if t.raw_data ≠ "" then (1/10 : ℚ) else 0))
  let score :=
    if accidents ≠ [] then
      score + min
        ((accidents.take 5).foldl
          (fun s a =>
            s + (if a.location ≠ "未知位置" then (1/10 : ℚ) else 0) +
              (if a.accident_time.isSome then (1/10 : ℚ) else 0) +
              (if a.severity ≠ "未知" then (1/10 : ℚ) else 0) +
              (if a.description ≠ "" then (1/10 : ℚ) else 0))
          0)
        (6/10)
    else score
  min score 1

/-- `DataFusionEngine.fuse_data` (the current time `datetime.utcnow()` is the
explicit parameter `now`). -/
def fuse_data (traffic_data_list : List TrafficDataPoint)
    (accidents : List TrafficAccident) (now : ℚ) : EnhancedTrafficData :=
  let bp := selectBest traffic_data_list now
  let sources := addSources (if bp.1.isSome then ["高德API"] else []) accidents
  let has_emergency := accidents.any fun a => a.severity = "严重" || a.severity = "特大"
  let completeness_score := calculate_completeness bp.1 accidents
  let overall_quality_score := bp.2 * (6/10) + completeness_score * (4/10)
  { traffic_data := bp.1
    accidents := accidents
    sources := sources
    collected_at := now
    overall_quality_score := overall_quality_score
    has_emergency := has_emergency
    completeness_score := completeness_score }

end Fusion

/- ===================== event_driven_collector.py: events and publisher ===================== -/

namespace EventCollector

/-- `EventType` enum from `event_driven_collector.py`. -/
inductive EventType where
  | traffic_congestion
  | accident_detected
  | emergency_vehicle
  | road_closure
  | weather_alert
  | system_alert
  | data_update
  | custom_event
deriving DecidableEq, Repr

/-- `EventPriority` enum; `.value` below gives its integer value. -/
inductive EventPriority where
  | CRITICAL
  | HIGH
  | MEDIUM
  | LOW
deriving DecidableEq, Repr

/-- The integer value of each `EventPriority` member. -/
def EventPriority.value : EventPriority → Nat
  | .CRITICAL => 1
  | .HIGH => 2
  | .MEDIUM => 3
  | .LOW => 4

/-- `TrafficEvent` dataclass (floats and datetimes as `ℚ`; the opaque
`data : Dict[str, Any]` payload is modeled as an association list of strings;
it is never inspected by the verified code paths). -/
structure TrafficEvent where
  event_id : String
  event_type : EventType
  priority : EventPriority
  title : String
  description : String
  location_lng : ℚ
  location_lat : ℚ
  radius_km : ℚ
  timestamp : ℚ
  source : String
  data : List (String × String) := []
  processed : Bool := false
  processing_time : Option ℚ := none
  callback_count : Nat := 0
deriving DecidableEq, Repr

/-- One entry of `EventSubscription.location_filters` (a `Dict[str, Any]` in
the source): `center` is present iff both `center_lng` and `center_lat` keys
are present; `radius_km = none` models a missing key, for which the code uses
`float('inf')` (so the filter then matches at any distance). -/
structure LocationFilter where
  center : Option (ℚ × ℚ)
  radius_km : Option ℚ
deriving DecidableEq, Repr

/-- `EventSubscription` dataclass; the Python `Set` fields are lists here and
membership is what matters; the `callback : Callable` delivery target is not
data — delivery is modeled as membership in the result of
`notify_subscribers`. -/
structure EventSubscription where
  subscription_id : String
  event_types : List EventType
  location_filters : List LocationFilter
  priority_filters : List EventPriority
  active : Bool := true
  created_at : ℚ := 0
deriving DecidableEq, Repr

/-- `EventPublisher._calculate_distance` computes
`sqrt((lng2-lng1)^2 + (lat2-lat1)^2) * 111` and the code uses it only in the
comparison `distance <= max_radius + event.radius_km`.  Over the reals,
`sqrt(s) * 111 ≤ R` (with `s ≥ 0`) is equivalent to `0 ≤ R ∧ 111² * s ≤ R²`,
which is how the comparison is embedded exactly over `ℚ` (`111² = 12321`);
the equivalence is proved in `distance_le_iff`. -/
def distance_le (lng1 lat1 lng2 lat2 maxR : ℚ) : Bool :=
  decide (0 ≤ maxR ∧ 12321 * ((lng2 - lng1)^2 + (lat2 - lat1)^2) ≤ maxR^2)

/-- The per-filter test inside `EventPublisher._matches_location_filter`:
a filter without a center never matches; a filter with a center and no
`radius_km` key has `max_radius = float('inf')` and always matches. -/
def matchesFilter (event : TrafficEvent) (f : LocationFilter) : Bool :=
  match f.center with
  | none => false
  | some c =>
    match f.radius_km with
    | none => true
    | some r =>
      distance_le event.location_lng event.location_lat c.1 c.2 (r + event.radius_km)

/-- `EventPublisher._matches_location_filter`: empty filter list matches
everything, otherwise some filter must match. -/
def matches_location_filter (event : TrafficEvent)
    (filters : List LocationFilter) : Bool :=
  filters.isEmpty || filters.any (matchesFilter event)

/-- `EventPublisher._notify_subscribers`: the returned list contains exactly
the subscriptions whose callback is invoked for `event` (a callback exception
is caught after invocation and does not affect the others). -/
def notify_subscribers (subscribers : List EventSubscription)
    (event : TrafficEvent) : List EventSubscription :=
  subscribers.filter fun s =>
    s.active && decide (event.event_type ∈ s.event_types) &&
      decide (event.priority ∈ s.priority_filters) &&
      matches_location_filter event s.location_filters

instance : Inhabited TrafficEvent :=
  ⟨{ event_id := "", event_type := .system_alert, priority := .LOW, title := "",
     description := "", location_lng := 0, location_lat := 0, radius_km := 0,
     timestamp := 0, source := "" }⟩

/-- A heap element as pushed by `EventQueue.put`:
`(priority_value, timestamp, event)`. -/
abbrev Ent := Nat × ℚ × TrafficEvent

/-- The sort key `(priority_rank, arrival_timestamp)` of a heap element. -/
def entKey (e : Ent) : Nat × ℚ := (e.1, e.2.1)

/-- Strict lexicographic order on heap keys: lower priority value first, then
earlier timestamp. -/
def keyLt (a b : Nat × ℚ) : Prop := a.1 < b.1 ∨ (a.1 = b.1 ∧ a.2 < b.2)

instance (a b : Nat × ℚ) : Decidable (keyLt a b) := by
  unfold keyLt; infer_instance

/-- Reflexive closure companion of `keyLt` (totality of the lexicographic
order makes this the complement of the reversed strict order). -/
def keyLe (a b : Nat × ℚ) : Prop := ¬ keyLt b a

/-- Python `<` on two heap entries `(p, t, ev)` (tuple comparison): compares
`p`, then `t`; when both are equal it falls back to comparing the
`TrafficEvent` payloads, which define no ordering — a `TypeError`. -/
def entLt (a b : Ent) : Except PyErr Bool :=
  if a.1 = b.1 then
    if a.2.1 = b.2.1 then .error .typeError
    else .ok (decide (a.2.1 < b.2.1))
  else .ok (decide (a.1 < b.1))

/-- The loop of CPython `heapq._siftdown(heap, startpos, pos)` (the library
function used by `EventQueue.put`): bubble `newitem` up, moving each parent
that compares greater down into `pos`; comparison failures propagate. -/
def siftdownLoop (newitem : Ent) (startpos : Nat) : Nat → List Ent → Except PyErr (List Ent)
  | pos, h =>
    if hp : startpos < pos then
      let parentpos := (pos - 1) / 2
      let parent := h.getD parentpos default
      match entLt newitem parent with
      | .error e => .error e
      | .ok true => siftdownLoop newitem startpos parentpos (h.set pos parent)
      | .ok false => .ok (h.set pos newitem)
    else .ok (h.set pos newitem)
  termination_by pos _ => pos
  decreasing_by omega

/-- The walk-down loop of CPython `heapq._siftup(heap, pos)`: move the smaller
child up until reaching a leaf (`childpos = 2*pos+1`, `rightpos = childpos+1`;
the right child is taken when it exists and `not heap[childpos] <
heap[rightpos]`), then `_siftdown` bubbles `newitem` back up from the leaf. -/
def siftupLoop (newitem : Ent) (endpos startpos : Nat) : Nat → List Ent → Except PyErr (List Ent)
  | pos, h =>
    if hc : 2 * pos + 1 < endpos then
      if hr : 2 * pos + 1 + 1 < endpos then
        match entLt (h.getD (2 * pos + 1) default) (h.getD (2 * pos + 1 + 1) default) with
        | .error e => .error e
        | .ok true =>
          siftupLoop newitem endpos startpos (2 * pos + 1) (h.set pos (h.getD (2 * pos + 1) default))
        | .ok false =>
          siftupLoop newitem endpos startpos (2 * pos + 1 + 1) (h.set pos (h.getD (2 * pos + 1 + 1) default))
      else
        siftupLoop newitem endpos startpos (2 * pos + 1) (h.set pos (h.getD (2 * pos + 1) default))
    else siftdownLoop newitem startpos pos (h.set pos newitem)
  termination_by pos _ => endpos - pos
  decreasing_by all_goals omega

/-- CPython `heapq.heappush`: append, then sift the new leaf down toward the
root (`_siftdown(heap, 0, len(heap)-1)`). -/
def heappush (heap : List Ent) (item : Ent) : Except PyErr (List Ent) :=
  siftdownLoop item 0 ((heap ++ [item]).length - 1) (heap ++ [item])

/-- CPython `heapq.heappop`: pop the last element (`IndexError` when empty);
if the heap remains nonempty, save the root, move the last element there and
`_siftup(heap, 0)`. -/
def heappop (heap : List Ent) : Except PyErr (Ent × List Ent) :=
  match heap with
  | [] => .error .indexError
  | _ :: _ =>
    let lastelt := heap.getLastD default
    let rest := heap.dropLast
    match rest with
    | [] => .ok (lastelt, [])
    | _ :: _ =>
      let returnitem := rest.getD 0 default
      (siftupLoop lastelt rest.length 0 0 (rest.set 0 lastelt)).map
        fun h' => (returnitem, h')

/-- `EventQueue` state: the heap list plus the `stats` counters
(`queue_size` is derived: `EventQueue.size`). -/
structure EventQueue where
  max_size : Nat := 10000
  queue : List Ent := []
  total_events : Nat := 0
  processed_events : Nat := 0
  dropped_events : Nat := 0
deriving DecidableEq, Repr

/-- `EventQueue.size`. -/
def EventQueue.size (q : EventQueue) : Nat := q.queue.length

/-- `EventQueue.put`: on a full queue `heapq.heappop` discards an element
first, counting it as dropped (the `except IndexError: return False` path is
reachable only for `max_size = 0`); then push
`(priority.value, timestamp, event)`.  Comparison `TypeError`s propagate to
the caller — only `IndexError` is caught. -/
def EventQueue.put (q : EventQueue) (event : TrafficEvent) : Except PyErr (Bool × EventQueue) :=
  if q.max_size ≤ q.queue.length then
    match heappop q.queue with
    | .error .indexError => .ok (false, q)
    | .error e => .error e
    | .ok dh =>
      match heappush dh.2 (event.priority.value, event.timestamp, event) with
      | .error e => .error e
      | .ok h' =>
        .ok (true,
          { q with
            queue := h'
            dropped_events := q.dropped_events + 1
            total_events := q.total_events + 1 })
  else
    match heappush q.queue (event.priority.value, event.timestamp, event) with
    | .error e => .error e
    | .ok h' => .ok (true, { q with queue := h', total_events := q.total_events + 1 })

/-- `EventQueue.get`: with an empty queue the Python code waits for the
timeout and returns `None` (`ok none` here); otherwise `heappop` returns the
event of the minimal entry. -/
def EventQueue.popOne (q : EventQueue) : Except PyErr (Option (TrafficEvent × EventQueue)) :=
  match q.queue with
  | [] => .ok none
  | _ :: _ =>
    (heappop q.queue).map fun r => some (r.1.2.2, { q with queue := r.2 })

/-- `EventQueue.get_batch`: repeatedly `get` with a short timeout until
`max_batch_size` events are collected or a `get` times out (here: the queue
is empty). -/
def EventQueue.get_batch (q : EventQueue) : Nat → Except PyErr (List TrafficEvent × EventQueue)
  | 0 => .ok ([], q)
  | n + 1 =>
    match q.popOne with
    | .error e => .error e
    | .ok none => .ok ([], q)
    | .ok (some (ev, q')) => (q'.get_batch n).map fun r => (ev :: r.1, r.2)

/-- Push a whole list of events in order. -/
def EventQueue.putAll (q : EventQueue) : List TrafficEvent → Except PyErr EventQueue
  | [] => .ok q
  | e :: rest =>
    match q.put e with
    | .error err => .error err
    | .ok r => r.2.putAll rest

/-- A push or pop operation on the queue, for the length invariant. -/
inductive QueueOp where
  | push (e : TrafficEvent)
  | pop
deriving Repr

/-- Run a sequence of queue operations (pops on an empty queue time out and
leave the queue unchanged). -/
def EventQueue.runOps (q : EventQueue) : List QueueOp → Except PyErr EventQueue
  | [] => .ok q
  | .push e :: rest =>
    match q.put e with
    | .error err => .error err
    | .ok r => r.2.runOps rest
  | .pop :: rest =>
    match q.popOne with
    | .error err => .error err
    | .ok none => q.runOps rest
    | .ok (some (_, q')) => q'.runOps rest

/-- The sort key of an event as used by `put`. -/
def evKey (e : TrafficEvent) : Nat × ℚ := (e.priority.value, e.timestamp)

/-- Minimal event constructor for the concrete queue scenarios. -/
def mkEv (id : String) (p : EventPriority) (ts : ℚ) : TrafficEvent :=
  { event_id := id, event_type := .data_update, priority := p, title := "",
    description := "", location_lng := 0, location_lat := 0, radius_km := 0,
    timestamp := ts, source := "s" }

/-- The binary-heap array invariant for `keyLe` on the sort keys: every
non-root position is at least its parent (`(j-1)/2`). -/
def HeapOrd (l : List Ent) : Prop :=
  ∀ j, 0 < j → j < l.length →
    keyLe (entKey (l.getD ((j - 1) / 2) default)) (entKey (l.getD j default))

/-- Pairwise-distinct sort keys (heap entries never tie, so tuple comparison
never reaches the unordered `TrafficEvent` payloads). -/
def kND (l : List Ent) : Prop := l.Pairwise fun a b => entKey a ≠ entKey b

/-- The four events of the concrete priority scenario: [low, critical,
medium, critical] arriving in that order with increasing timestamps. -/
def c2events : List TrafficEvent :=
  [mkEv "e1" .LOW 1, mkEv "e2" .CRITICAL 2, mkEv "e3" .MEDIUM 3, mkEv "e4" .CRITICAL 4]

/-- The heap entry `put` builds for an event. -/
def entryOf (e : TrafficEvent) : Ent := (e.priority.value, e.timestamp, e)

/-- Well-formedness of the queue contents: every entry is the tuple `put`
built from its own event. -/
def entWF (l : List Ent) : Prop := ∀ en ∈ l, en = entryOf en.2.2

/-- The entries of the events pushed by a sequence of operations. -/
def pushedEntries (ops : List QueueOp) : List Ent :=
  ops.filterMap fun op =>
    match op with
    | .push e => some (entryOf e)
    | .pop => none

/-- 1001 distinct low-priority events with increasing timestamps, for the
capacity-1000 overflow scenario. -/
def c9events : List TrafficEvent :=
  (List.range 1001).map fun i : Nat => mkEv (toString i) .LOW (i : ℚ)

/-- Critical event (rank 1) arriving first, for the overflow scenario. -/
def c1crit : TrafficEvent := mkEv "crit" .CRITICAL 0

/-- Low event (rank 4) arriving second, for the overflow scenario. -/
def c1low : TrafficEvent := mkEv "low" .LOW 1

/-- Medium event (rank 3) pushed into the full queue. -/
def c1med : TrafficEvent := mkEv "med" .MEDIUM 2

/-- Concrete subscription used to instantiate the delivery theorem. -/
def c8sub : EventSubscription :=
  { subscription_id := "sub-1"
    event_types := [EventType.accident_detected]
    location_filters := [{ center := some (116, 40), radius_km := some 5 }]
    priority_filters := [EventPriority.CRITICAL, EventPriority.HIGH] }

/-- Concrete event used to instantiate the delivery theorem. -/
def c8event : TrafficEvent :=
  { event_id := "ev-1"
    event_type := EventType.accident_detected
    priority := EventPriority.CRITICAL
    title := "accident"
    description := "collision"
    location_lng := 116
    location_lat := 40
    radius_km := 1
    timestamp := 0
    source := "test" }

end EventCollector

/- ===================== smart_cache.py ===================== -/

namespace SmartCache

/-- Serializable Python values handled by the cache.  `pickle` and `gzip` are
external libraries and are modeled by contract: `pickleDumps` is an injective
encoding whose output starts with the pickle protocol byte 0x80 (so it never
begins with the gzip magic 0x1f 0x8b), `pickleLoads` is its inverse,
`gzip_compress` prefixes the gzip magic and `gzip_decompress` strips it,
failing on input that does not start with it. -/
inductive PyValue where
  | pbytes : List Nat → PyValue
  | pnat : Nat → PyValue
deriving DecidableEq, Repr

/-- Payload of the contract-modeled pickle encoding. -/
def pvEncode : PyValue → List Nat
  | .pbytes l => 0 :: l
  | .pnat n => 1 :: [n]

/-- Inverse of `pvEncode`. -/
def pvDecode : List Nat → Option PyValue
  | 0 :: l => some (.pbytes l)
  | 1 :: [n] => some (.pnat n)
  | _ => none

/-- Contract model of `pickle.dumps` (protocol byte 0x80 = 128 first). -/
def pickleDumps (v : PyValue) : List Nat := 128 :: pvEncode v

/-- Contract model of `pickle.loads`; `none` models the raised exception. -/
def pickleLoads (b : List Nat) : Option PyValue :=
  match b with
  | 128 :: rest => pvDecode rest
  | _ => none

/-- Contract model of `gzip.compress` (`DataCompressor.compress`): gzip magic
bytes 0x1f 0x8b = 31, 139 first. -/
def gzip_compress (b : List Nat) : List Nat := 31 :: 139 :: b

/-- Contract model of `gzip.decompress` (`DataCompressor.decompress`);
`none` models the raised exception on non-gzip input. -/
def gzip_decompress (b : List Nat) : Option (List Nat) :=
  match b with
  | 31 :: 139 :: rest => some rest
  | _ => none

/-- Python `len()` of a stored cache value.  Total here; with compression
disabled the stored value can be a length-less Python object, on which the
source would raise — no verified claim exercises that path. -/
def pvLen : PyValue → Nat
  | .pbytes b => b.length
  | .pnat _ => 0

/-- `CacheEntry` dataclass from `smart_cache.py` (datetimes and TTL seconds
as `ℚ`). -/
structure CacheEntry where
  key : String
  value : PyValue
  created_at : ℚ
  last_accessed : ℚ
  access_count : Nat := 0
  ttl : ℚ := 300
  size_bytes : Nat := 0
  is_compressed : Bool := false
deriving DecidableEq, Repr

/-- `LRUMemoryCache`: the `OrderedDict` is an association list whose head is
the least recently used entry; operations keep keys unique. -/
structure LRUMemoryCache where
  max_size : Nat := 1000
  cache : List (String × CacheEntry) := []
  hits : Nat := 0
  misses : Nat := 0
  evictions : Nat := 0
deriving DecidableEq, Repr

/-- `LRUMemoryCache.get`: on a hit the entry is moved to the recent end with
refreshed `last_accessed` and `access_count`; note that no TTL check is
performed here. -/
def LRUMemoryCache.get (c : LRUMemoryCache) (key : String) (now : ℚ) :
    Option CacheEntry × LRUMemoryCache :=
  match c.cache.lookup key with
  | some entry =>
    let e := { entry with last_accessed := now, access_count := entry.access_count + 1 }
    (some e,
      { c with
        cache := (c.cache.filter fun kv => !(kv.1 == key)) ++ [(key, e)]
        hits := c.hits + 1 })
  | none => (none, { c with misses := c.misses + 1 })

/-- `LRUMemoryCache.put`: replace in place when the key exists (an
`OrderedDict` assignment keeps the position), otherwise evict the head
(`next(iter(self.cache))`) when at capacity and append; `next` on an empty
dict raises `StopIteration`. -/
def LRUMemoryCache.put (c : LRUMemoryCache) (key : String) (entry : CacheEntry) :
    Except PyErr LRUMemoryCache :=
  if (c.cache.lookup key).isSome then
    .ok { c with cache := c.cache.map fun kv => if kv.1 = key then (key, entry) else kv }
  else if c.max_size ≤ c.cache.length then
    match c.cache with
    | [] => .error .stopIteration
    | _ :: rest =>
      .ok { c with cache := rest ++ [(key, entry)], evictions := c.evictions + 1 }
  else .ok { c with cache := c.cache ++ [(key, entry)] }

/-- `LRUMemoryCache.remove`. -/
def LRUMemoryCache.remove (c : LRUMemoryCache) (key : String) :
    Bool × LRUMemoryCache :=
  if (c.cache.lookup key).isSome then
    (true, { c with cache := c.cache.filter fun kv => !(kv.1 == key) })
  else (false, c)

/-- `LRUMemoryCache.cleanup_expired`: remove every entry with
`(now - created_at).total_seconds() > ttl`, counting them as evictions. -/
def LRUMemoryCache.cleanup_expired (c : LRUMemoryCache) (now : ℚ) :
    Nat × LRUMemoryCache :=
  let expired := c.cache.filter fun kv => decide (kv.2.ttl < now - kv.2.created_at)
  (expired.length,
    { c with
      cache := c.cache.filter fun kv => !(decide (kv.2.ttl < now - kv.2.created_at))
      evictions := c.evictions + expired.length })

/-- `RedisCache`: the remote store is an association list of entries with the
`setex` expiry instant; `connected = false` models a failed `_connect` (the
`redis_client is None` paths).  The pickled `asdict(entry)` round-trip through
Redis is the identity by the pickle contract, so entries are stored
directly. -/
structure RedisCache where
  connected : Bool := true
  store : List (String × CacheEntry × ℚ) := []
  hits : Nat := 0
  misses : Nat := 0
  errors : Nat := 0
deriving DecidableEq, Repr

/-- `RedisCache.get`: a key the remote store has natively expired
(`now ≥ expire_at`) is absent; a present entry past `created_at + ttl` is
deleted on read and reported as a miss. -/
def RedisCache.get (c : RedisCache) (key : String) (now : ℚ) :
    Option CacheEntry × RedisCache :=
  if !c.connected then (none, { c with errors := c.errors + 1 })
  else
    match c.store.lookup key with
    | some ee =>
      if now < ee.2 then
        if ee.1.ttl < now - ee.1.created_at then
          (none,
            { c with
              store := c.store.filter fun kv => !(kv.1 == key)
              misses := c.misses + 1 })
        else (some ee.1, { c with hits := c.hits + 1 })
      else (none, { c with misses := c.misses + 1 })
    | none => (none, { c with misses := c.misses + 1 })

/-- `RedisCache.put` (`setex key entry.ttl data`). -/
def RedisCache.put (c : RedisCache) (key : String) (entry : CacheEntry) (now : ℚ) :
    RedisCache :=
  if !c.connected then { c with errors := c.errors + 1 }
  else { c with store :=
    (c.store.filter fun kv => !(kv.1 == key)) ++ [(key, entry, now + entry.ttl)] }

/-- `RedisCache.delete`. -/
def RedisCache.delete (c : RedisCache) (key : String) : Bool × RedisCache :=
  if !c.connected then (false, c)
  else ((c.store.lookup key).isSome,
    { c with store := c.store.filter fun kv => !(kv.1 == key) })

/-- `CacheConfig` (the fields consumed by the verified paths, with the
source's defaults; the Redis connection parameters live in `RedisCache`). -/
structure CacheConfig where
  memory_max_size : Nat := 1000
  memory_ttl : ℚ := 300
  enable_compression : Bool := true
  compression_threshold : Nat := 1024
  enable_l1_cache : Bool := true
  enable_l2_cache : Bool := true
deriving DecidableEq, Repr

/-- The `global_stats` dict of `SmartCacheManager`. -/
structure GlobalStats where
  total_requests : Nat := 0
  l1_hits : Nat := 0
  l2_hits : Nat := 0
  misses : Nat := 0
deriving DecidableEq, Repr

/-- `SmartCacheManager`. -/
structure SmartCacheManager where
  config : CacheConfig := {}
  l1_cache : Option LRUMemoryCache
  l2_cache : Option RedisCache
  global_stats : GlobalStats := {}
deriving DecidableEq, Repr

/-- `SmartCacheManager.__init__` (whether the Redis connection attempt
succeeded is the explicit `redis_connected` parameter). -/
def mkManager (config : CacheConfig) (redis_connected : Bool) : SmartCacheManager :=
  { config := config
    l1_cache :=
      if config.enable_l1_cache then some { max_size := config.memory_max_size } else none
    l2_cache :=
      if config.enable_l2_cache then some { connected := redis_connected } else none }

/-- `SmartCacheManager._compress_if_needed` (compression stats omitted):
serialize, and compress when the size strictly exceeds the threshold
(`DataCompressor.should_compress`). -/
def compress_if_needed (config : CacheConfig) (value : PyValue) : PyValue × Bool :=
  if !config.enable_compression then (value, false)
  else
    let serialized := pickleDumps value
    if config.compression_threshold < serialized.length then
      (.pbytes (gzip_compress serialized), true)
    else (.pbytes serialized, false)

/-- Fallback of `_decompress_if_needed`: try `pickle.loads` on the raw bytes,
else return them unchanged. -/
def decompress_fallback (b : List Nat) : PyValue :=
  match pickleLoads b with
  | some v => v
  | none => .pbytes b

/-- `SmartCacheManager._decompress_if_needed`. -/
def decompress_if_needed (value : PyValue) : PyValue :=
  match value with
  | .pbytes b =>
    match gzip_decompress b with
    | some d =>
      match pickleLoads d with
      | some v => v
      | none => decompress_fallback b
    | none => decompress_fallback b
  | v => v

/-- The L2 leg of `SmartCacheManager.get`: on an L2 hit, decompress, backfill
L1 and return. -/
def SmartCacheManager.getFromL2 (m : SmartCacheManager) (key : String) (now : ℚ) :
    Except PyErr (Option PyValue × SmartCacheManager) :=
  match m.l2_cache with
  | some l2 =>
    let r := l2.get key now
    match r.1 with
    | some entry =>
      let m2 :=
        { m with
          l2_cache := some r.2
          global_stats := { m.global_stats with l2_hits := m.global_stats.l2_hits + 1 } }
      let value := decompress_if_needed entry.value
      match m2.l1_cache with
      | some l1 =>
        match l1.put key entry with
        | .ok l1x => .ok (some value, { m2 with l1_cache := some l1x })
        | .error e => .error e
      | none => .ok (some value, m2)
    | none =>
      .ok (none,
        { m with
          l2_cache := some r.2
          global_stats := { m.global_stats with misses := m.global_stats.misses + 1 } })
  | none =>
    .ok (none,
      { m with global_stats := { m.global_stats with misses := m.global_stats.misses + 1 } })

/-- `SmartCacheManager.get`: L1 first (no TTL check there), then L2. -/
def SmartCacheManager.get (m0 : SmartCacheManager) (key : String) (now : ℚ) :
    Except PyErr (Option PyValue × SmartCacheManager) :=
  let m := { m0 with global_stats :=
    { m0.global_stats with total_requests := m0.global_stats.total_requests + 1 } }
  match m.l1_cache with
  | some l1 =>
    let r := l1.get key now
    let m1 := { m with l1_cache := some r.2 }
    match r.1 with
    | some entry =>
      .ok (some (decompress_if_needed entry.value),
        { m1 with global_stats :=
          { m1.global_stats with l1_hits := m1.global_stats.l1_hits + 1 } })
    | none => m1.getFromL2 key now
  | none => m.getFromL2 key now

/-- The L2 leg of `SmartCacheManager.put`. -/
def SmartCacheManager.putToL2 (m : SmartCacheManager) (key : String)
    (entry : CacheEntry) (now : ℚ) : SmartCacheManager :=
  match m.l2_cache with
  | some l2 => { m with l2_cache := some (l2.put key entry now) }
  | none => m

/-- `SmartCacheManager.put`: compress if needed, build the entry, store to
both enabled tiers with the same TTL (defaulting to `memory_ttl`). -/
def SmartCacheManager.put (m : SmartCacheManager) (key : String) (value : PyValue)
    (ttl : Option ℚ) (now : ℚ) : Except PyErr (Bool × SmartCacheManager) :=
  let t := ttl.getD m.config.memory_ttl
  let cv := compress_if_needed m.config value
  let entry : CacheEntry :=
    { key := key, value := cv.1, created_at := now, last_accessed := now,
      ttl := t, size_bytes := pvLen cv.1, is_compressed := cv.2 }
  match m.l1_cache with
  | some l1 =>
    match l1.put key entry with
    | .ok l1x => .ok (true, SmartCacheManager.putToL2 { m with l1_cache := some l1x } key entry now)
    | .error e => .error e
  | none => .ok (true, SmartCacheManager.putToL2 m key entry now)

/-- One run of the background cleanup worker started by
`_start_cleanup_task`: sweep expired entries from L1. -/
def SmartCacheManager.cleanupRun (m : SmartCacheManager) (now : ℚ) : SmartCacheManager :=
  match m.l1_cache with
  | some l1 => { m with l1_cache := some (l1.cleanup_expired now).2 }
  | none => m

/-- Freshly constructed manager with the default configuration and a live
Redis connection, for the concrete expiry scenario. -/
def c3mgr : SmartCacheManager := mkManager {} true

/-- Concrete cache entry used to instantiate the L2 freshness theorem. -/
def c3entry : CacheEntry :=
  { key := "k", value := .pnat 1, created_at := 0, last_accessed := 0, ttl := 300 }

/-- Concrete connected Redis tier holding `c3entry` until instant 100. -/
def c3redis : RedisCache :=
  { connected := true, store := [("k", c3entry, 100)] }

end SmartCache

namespace DataCollector

/-- The multiplicative factor contributed by the speed rule of
`check_data_quality`. -/
def speedFactor (d : TrafficDataPoint) : ℚ :=
  if speedTruthy d.avg_speed then
    if d.avg_speed.getD 0 < 5 ∨ 120 < d.avg_speed.getD 0 then 1/2 else 1
  else 1

/-- The multiplicative factor contributed by the congestion-ratio rule. -/
def congFactor (d : TrafficDataPoint) : ℚ :=
  if d.congestion_ratio < 0 ∨ 1 < d.congestion_ratio then 1/2 else 1

/-- The multiplicative factor contributed by the road-count rule. -/
def roadsFactor (d : TrafficDataPoint) : ℚ :=
  if d.total_roads = 0 then 3/10 else 1

/-- The multiplicative factor contributed by the timestamp rule. -/
def timeFactor (d : TrafficDataPoint) (now : ℚ) : ℚ :=
  if now < d.timestamp then 1/10
  else if 3600 < now - d.timestamp then 4/5
  else 1

/-- Concrete observation witnessing the truthiness gap of the speed rule:
`avg_speed = 0.0` is outside [5,120] but falsy in Python. -/
def c6obs : TrafficDataPoint :=
  { timestamp := 1000, location_lng := 116, location_lat := 40, radius_km := 5,
    total_roads := 10, congested_roads := 2, slow_roads := 3, clear_roads := 5,
    avg_speed := some 0, congestion_ratio := 1/2, raw_data := "raw" }

/-- First of two equal-quality observations (quality score 1 at `now = 1000`). -/
def c7obs1 : TrafficDataPoint :=
  { timestamp := 900, location_lng := 116, location_lat := 40, radius_km := 5,
    total_roads := 10, congested_roads := 2, slow_roads := 3, clear_roads := 5,
    avg_speed := some 60, congestion_ratio := 1/2, raw_data := "raw" }

/-- Second observation: identical quality, strictly later timestamp. -/
def c7obs2 : TrafficDataPoint :=
  { c7obs1 with timestamp := 950 }

end DataCollector

/- ===================== theorems: quality checker and fusion ===================== -/

namespace DataCollector

theorem check_eq_factors (d : TrafficDataPoint) (now : ℚ) :
    check_data_quality d now =
      max 0 (speedFactor d * congFactor d * roadsFactor d * timeFactor d now) := by
  simp only [check_data_quality, speedFactor, congFactor, roadsFactor, timeFactor]
  split_ifs <;> ring_nf

theorem checkNoCong_eq_factors (d : TrafficDataPoint) (now : ℚ) :
    check_data_quality_noCongestionRule d now =
      max 0 (speedFactor d * roadsFactor d * timeFactor d now) := by
  simp only [check_data_quality_noCongestionRule, speedFactor, roadsFactor, timeFactor]
  split_ifs <;> ring_nf

theorem congFactor_pos (d : TrafficDataPoint) : 0 < congFactor d := by
  unfold congFactor; split_ifs <;> norm_num

theorem roadsFactor_pos (d : TrafficDataPoint) : 0 < roadsFactor d := by
  unfold roadsFactor; split_ifs <;> norm_num

theorem timeFactor_pos (d : TrafficDataPoint) (now : ℚ) : 0 < timeFactor d now := by
  unfold timeFactor; split_ifs <;> norm_num

theorem speedFactor_pos (d : TrafficDataPoint) : 0 < speedFactor d := by
  unfold speedFactor; split_ifs <;> norm_num

theorem check_nonneg (d : TrafficDataPoint) (now : ℚ) :
    0 ≤ check_data_quality d now := by
  rw [check_eq_factors]; exact le_max_left _ _

end DataCollector

/-- Claim C6 counterexample: the observation `c6obs` has `avg_speed = 0.0`,
which lies outside [5,120]; yet `check_data_quality` applies no penalty (the
Python guard `if data.avg_speed:` is falsy at 0.0): its score equals the score
of the same observation without the speed field, and that score is positive,
so the score is not strictly lower as the claim requires. -/
theorem claim_C6_counterexample :
    DataCollector.c6obs.avg_speed = some 0 ∧ (0 : ℚ) < 5 ∧
    DataCollector.check_data_quality DataCollector.c6obs 1000 = 1 ∧
    DataCollector.check_data_quality
      { DataCollector.c6obs with avg_speed := none } 1000 = 1 := by
  refine ⟨rfl, by norm_num, ?_, ?_⟩ <;>
    norm_num [DataCollector.check_data_quality, DataCollector.c6obs,
      DataCollector.speedTruthy]

/-- Claim C6 (amended): when `avg_speed` is present, non-zero (Python
truthiness) and outside [5,120], the ×0.5 penalty applies multiplicatively:
the score is half the score of the same observation without the speed field,
hence never exceeds it, and is strictly lower when the latter is positive.
When `congestion_ratio` is outside [0,1] the ×0.5 penalty always applies,
relative to the variant of the checker without the congestion rule. -/
theorem claim_C6_amended (d : DataCollector.TrafficDataPoint) (now : ℚ) :
    (∀ v : ℚ, d.avg_speed = some v → v ≠ 0 → v < 5 ∨ 120 < v →
      DataCollector.check_data_quality d now =
        (1/2) * DataCollector.check_data_quality { d with avg_speed := none } now ∧
      DataCollector.check_data_quality d now ≤
        DataCollector.check_data_quality { d with avg_speed := none } now ∧
      (0 < DataCollector.check_data_quality { d with avg_speed := none } now →
        DataCollector.check_data_quality d now <
          DataCollector.check_data_quality { d with avg_speed := none } now)) ∧
    (d.congestion_ratio < 0 ∨ 1 < d.congestion_ratio →
      DataCollector.check_data_quality d now =
        (1/2) * DataCollector.check_data_quality_noCongestionRule d now ∧
      DataCollector.check_data_quality d now ≤
        DataCollector.check_data_quality_noCongestionRule d now ∧
      (0 < DataCollector.check_data_quality_noCongestionRule d now →
        DataCollector.check_data_quality d now <
          DataCollector.check_data_quality_noCongestionRule d now)) := by
  have hpos : ∀ e : DataCollector.TrafficDataPoint,
      0 < DataCollector.congFactor e * DataCollector.roadsFactor e *
        DataCollector.timeFactor e now :=
    fun e => mul_pos (mul_pos (DataCollector.congFactor_pos e)
      (DataCollector.roadsFactor_pos e)) (DataCollector.timeFactor_pos e now)
  constructor
  · intro v hv hne hoor
    set dn : DataCollector.TrafficDataPoint := { d with avg_speed := none } with hdn
    have hsf : DataCollector.speedFactor d = 1/2 := by
      simp [DataCollector.speedFactor, DataCollector.speedTruthy, hv, hne, hoor]
    have hsfn : DataCollector.speedFactor dn = 1 := by
      simp [DataCollector.speedFactor, DataCollector.speedTruthy, hdn]
    have hcf : DataCollector.congFactor dn = DataCollector.congFactor d := rfl
    have hrf : DataCollector.roadsFactor dn = DataCollector.roadsFactor d := rfl
    have htf : DataCollector.timeFactor dn now = DataCollector.timeFactor d now := rfl
    have h1 : DataCollector.check_data_quality d now =
        (1/2) * (DataCollector.congFactor d * DataCollector.roadsFactor d *
          DataCollector.timeFactor d now) := by
      rw [DataCollector.check_eq_factors, hsf,
        max_eq_right (by nlinarith [hpos d] : (0:ℚ) ≤ 1/2 * DataCollector.congFactor d *
          DataCollector.roadsFactor d * DataCollector.timeFactor d now)]
      ring
    have h2 : DataCollector.check_data_quality dn now =
        DataCollector.congFactor d * DataCollector.roadsFactor d *
          DataCollector.timeFactor d now := by
      rw [DataCollector.check_eq_factors, hsfn, hcf, hrf, htf,
        max_eq_right (le_of_lt (by nlinarith [hpos d]))]
      ring
    refine ⟨by rw [h1, h2], ?_, ?_⟩
    · rw [h1, h2]; nlinarith [hpos d]
    · intro _; rw [h1, h2]; nlinarith [hpos d]
  · intro hoor
    have hcf : DataCollector.congFactor d = 1/2 := by
      simp [DataCollector.congFactor, hoor]
    have hq : 0 < DataCollector.speedFactor d * DataCollector.roadsFactor d *
        DataCollector.timeFactor d now :=
      mul_pos (mul_pos (DataCollector.speedFactor_pos d)
        (DataCollector.roadsFactor_pos d)) (DataCollector.timeFactor_pos d now)
    have h1 : DataCollector.check_data_quality d now =
        (1/2) * (DataCollector.speedFactor d * DataCollector.roadsFactor d *
          DataCollector.timeFactor d now) := by
      rw [DataCollector.check_eq_factors, hcf,
        max_eq_right (le_of_lt (by nlinarith))]
      ring
    have h2 : DataCollector.check_data_quality_noCongestionRule d now =
        DataCollector.speedFactor d * DataCollector.roadsFactor d *
          DataCollector.timeFactor d now := by
      rw [DataCollector.checkNoCong_eq_factors, max_eq_right (le_of_lt hq)]
    refine ⟨by rw [h1, h2], ?_, ?_⟩
    · rw [h1, h2]; nlinarith
    · intro _; rw [h1, h2]; nlinarith

/-- Witness for the amended claim C6 at a concrete observation whose
congestion ratio is 1.5 (outside [0,1]) and whose speed is 130 (outside
[5,120]). -/
theorem claim_C6_amended_witness :
    DataCollector.check_data_quality
        { DataCollector.c6obs with avg_speed := some 130, congestion_ratio := 3/2 } 1000 =
      (1/2) * DataCollector.check_data_quality_noCongestionRule
        { DataCollector.c6obs with avg_speed := some 130, congestion_ratio := 3/2 } 1000 ∧
    DataCollector.check_data_quality
        { DataCollector.c6obs with avg_speed := some 130, congestion_ratio := 3/2 } 1000 ≤
      DataCollector.check_data_quality_noCongestionRule
        { DataCollector.c6obs with avg_speed := some 130, congestion_ratio := 3/2 } 1000 ∧
    (0 < DataCollector.check_data_quality_noCongestionRule
        { DataCollector.c6obs with avg_speed := some 130, congestion_ratio := 3/2 } 1000 →
      DataCollector.check_data_quality
          { DataCollector.c6obs with avg_speed := some 130, congestion_ratio := 3/2 } 1000 <
        DataCollector.check_data_quality_noCongestionRule
          { DataCollector.c6obs with avg_speed := some 130, congestion_ratio := 3/2 } 1000) :=
  (claim_C6_amended { DataCollector.c6obs with avg_speed := some 130, congestion_ratio := 3/2 }
    1000).2 (by norm_num)

/-- Claim C5: `fuse_data` on empty observation and incident lists returns a
snapshot with no best observation, overall quality score 0 and no emergency;
and for every input pair it totally returns a snapshot. -/
theorem claim_C5 :
    (∀ now : ℚ,
      (Fusion.fuse_data [] [] now).traffic_data = none ∧
      (Fusion.fuse_data [] [] now).overall_quality_score = 0 ∧
      (Fusion.fuse_data [] [] now).has_emergency = false) ∧
    (∀ obs accs (now : ℚ), ∃ snap, Fusion.fuse_data obs accs now = snap) := by
  refine ⟨fun now => ⟨rfl, ?_, rfl⟩, fun obs accs now => ⟨_, rfl⟩⟩
  show (Fusion.selectBest [] now).2 * (6/10) +
    Fusion.calculate_completeness (Fusion.selectBest [] now).1 [] * (4/10) = 0
  norm_num [Fusion.selectBest, Fusion.calculate_completeness]

/-- Claim C7 counterexample: two observations of equal maximal quality score;
the one selected by `fuse_data` is the first in list order, not the one with
the later timestamp. -/
theorem claim_C7_counterexample :
    DataCollector.check_data_quality DataCollector.c7obs1 1000 =
      DataCollector.check_data_quality DataCollector.c7obs2 1000 ∧
    DataCollector.c7obs1.timestamp < DataCollector.c7obs2.timestamp ∧
    DataCollector.c7obs1 ≠ DataCollector.c7obs2 ∧
    (Fusion.fuse_data [DataCollector.c7obs1, DataCollector.c7obs2] [] 1000).traffic_data =
      some DataCollector.c7obs1 := by
  refine ⟨?_, ?_, ?_, ?_⟩
  · norm_num [DataCollector.check_data_quality, DataCollector.c7obs1,
      DataCollector.c7obs2, DataCollector.speedTruthy]
  · norm_num [DataCollector.c7obs1, DataCollector.c7obs2]
  · intro h
    have := congrArg DataCollector.TrafficDataPoint.timestamp h
    norm_num [DataCollector.c7obs1, DataCollector.c7obs2] at this
  · norm_num [Fusion.fuse_data, Fusion.selectBest, Fusion.selectBestStep,
      DataCollector.check_data_quality, DataCollector.c7obs1, DataCollector.c7obs2,
      DataCollector.speedTruthy]

theorem selectBest_go (now : ℚ) (l : List DataCollector.TrafficDataPoint) :
    ∀ (b : Option DataCollector.TrafficDataPoint) (s : ℚ),
    (l.foldl (Fusion.selectBestStep now) (b, s) = (b, s) ∧
      ∀ o ∈ l, DataCollector.check_data_quality o now ≤ s) ∨
    (∃ o l₁ l₂, l = l₁ ++ o :: l₂ ∧
      l.foldl (Fusion.selectBestStep now) (b, s) =
        (some o, DataCollector.check_data_quality o now) ∧
      s < DataCollector.check_data_quality o now ∧
      (∀ o' ∈ l₁, DataCollector.check_data_quality o' now <
        DataCollector.check_data_quality o now) ∧
      (∀ o' ∈ l₂, DataCollector.check_data_quality o' now ≤
        DataCollector.check_data_quality o now)) := by
  induction l with
  | nil => intro b s; left; exact ⟨rfl, by simp⟩
  | cons td l ih =>
    intro b s
    rw [List.foldl_cons]
    by_cases h : s < DataCollector.check_data_quality td now
    · have hstep : Fusion.selectBestStep now (b, s) td =
          (some td, DataCollector.check_data_quality td now) := by
        simp [Fusion.selectBestStep, h]
      rw [hstep]
      rcases ih (some td) (DataCollector.check_data_quality td now) with
        ⟨heq, hall⟩ | ⟨o, l₁, l₂, hsplit, heq, hlt, h₁, h₂⟩
      · right; exact ⟨td, [], l, by simp, heq, h, by simp, hall⟩
      · right
        refine ⟨o, td :: l₁, l₂, by simp [hsplit], heq, lt_trans h hlt, ?_, h₂⟩
        intro o' ho'
        rcases List.mem_cons.mp ho' with rfl | ho'
        · exact hlt
        · exact h₁ o' ho'
    · have hstep : Fusion.selectBestStep now (b, s) td = (b, s) := by
        simp [Fusion.selectBestStep, h]
      rw [hstep]
      rcases ih b s with ⟨heq, hall⟩ | ⟨o, l₁, l₂, hsplit, heq, hlt, h₁, h₂⟩
      · left
        refine ⟨heq, ?_⟩
        intro o ho
        rcases List.mem_cons.mp ho with rfl | ho
        · exact not_lt.mp h
        · exact hall o ho
      · right
        refine ⟨o, td :: l₁, l₂, by simp [hsplit], heq, hlt, ?_, h₂⟩
        intro o' ho'
        rcases List.mem_cons.mp ho' with rfl | ho'
        · exact lt_of_le_of_lt (not_lt.mp h) hlt
        · exact h₁ o' ho'

/-- Claim C7 (amended): ties in quality score are broken by list position, not
by timestamp: the selected best observation is the first one in input order
whose quality score strictly exceeds that of every earlier observation and is
at least that of every later one (and is positive); when every observation
scores 0 (in particular on an empty list), no best observation is selected. -/
theorem claim_C7_amended (l : List DataCollector.TrafficDataPoint)
    (accs : List Fusion.TrafficAccident) (now : ℚ) :
    ((Fusion.fuse_data l accs now).traffic_data = none →
      ∀ o ∈ l, DataCollector.check_data_quality o now = 0) ∧
    (∀ o, (Fusion.fuse_data l accs now).traffic_data = some o →
      ∃ l₁ l₂, l = l₁ ++ o :: l₂ ∧
        0 < DataCollector.check_data_quality o now ∧
        (∀ o' ∈ l₁, DataCollector.check_data_quality o' now <
          DataCollector.check_data_quality o now) ∧
        (∀ o' ∈ l₂, DataCollector.check_data_quality o' now ≤
          DataCollector.check_data_quality o now)) := by
  have hbp : (Fusion.fuse_data l accs now).traffic_data = (Fusion.selectBest l now).1 := rfl
  rcases selectBest_go now l none 0 with ⟨heq, hall⟩ | ⟨o, l₁, l₂, hsplit, heq, hlt, h₁, h₂⟩
  · constructor
    · intro _ o ho
      exact le_antisymm (hall o ho) (DataCollector.check_nonneg o now)
    · intro o ho
      rw [hbp] at ho
      unfold Fusion.selectBest at ho
      rw [heq] at ho
      exact absurd ho (by simp)
  · constructor
    · intro hnone
      rw [hbp] at hnone
      unfold Fusion.selectBest at hnone
      rw [heq] at hnone
      exact absurd hnone (by simp)
    · intro o' ho'
      rw [hbp] at ho'
      unfold Fusion.selectBest at ho'
      rw [heq] at ho'
      simp only [Option.some.injEq] at ho'
      subst ho'
      exact ⟨l₁, l₂, hsplit, hlt, h₁, h₂⟩

/-- Witness for the amended claim C7 at the concrete two-observation input of
the counterexample: the first-listed of the two equal-quality observations is
selected. -/
theorem claim_C7_amended_witness :
    ∃ l₁ l₂, [DataCollector.c7obs1, DataCollector.c7obs2] =
        l₁ ++ DataCollector.c7obs1 :: l₂ ∧
      0 < DataCollector.check_data_quality DataCollector.c7obs1 1000 ∧
      (∀ o' ∈ l₁, DataCollector.check_data_quality o' 1000 <
        DataCollector.check_data_quality DataCollector.c7obs1 1000) ∧
      (∀ o' ∈ l₂, DataCollector.check_data_quality o' 1000 ≤
        DataCollector.check_data_quality DataCollector.c7obs1 1000) :=
  (claim_C7_amended [DataCollector.c7obs1, DataCollector.c7obs2] [] 1000).2
    DataCollector.c7obs1
    (by norm_num [Fusion.fuse_data, Fusion.selectBest, Fusion.selectBestStep,
      DataCollector.check_data_quality, DataCollector.c7obs1, DataCollector.c7obs2,
      DataCollector.speedTruthy])

/- ===================== theorems: event publisher ===================== -/

theorem distance_le_iff (lng1 lat1 lng2 lat2 maxR : ℚ) :
    EventCollector.distance_le lng1 lat1 lng2 lat2 maxR = true ↔
      Real.sqrt (((lng2 : ℝ) - (lng1 : ℝ))^2 + ((lat2 : ℝ) - (lat1 : ℝ))^2) * 111 ≤
        (maxR : ℝ) := by
  have hs : (0:ℝ) ≤ ((lng2 : ℝ) - (lng1 : ℝ))^2 + ((lat2 : ℝ) - (lat1 : ℝ))^2 := by
    positivity
  have h111 : Real.sqrt (((lng2 : ℝ) - (lng1 : ℝ))^2 + ((lat2 : ℝ) - (lat1 : ℝ))^2) * 111 =
      Real.sqrt (12321 * (((lng2 : ℝ) - (lng1 : ℝ))^2 + ((lat2 : ℝ) - (lat1 : ℝ))^2)) := by
    rw [Real.sqrt_mul (by norm_num : (0:ℝ) ≤ 12321)]
    rw [show Real.sqrt (12321 : ℝ) = 111 by
      rw [show (12321 : ℝ) = 111^2 by norm_num, Real.sqrt_sq (by norm_num : (0:ℝ) ≤ 111)]]
    ring
  rw [EventCollector.distance_le, decide_eq_true_eq, h111, Real.sqrt_le_iff]
  constructor
  · rintro ⟨hR, hle⟩
    refine ⟨by exact_mod_cast hR, ?_⟩
    have : ((12321 * ((lng2 - lng1)^2 + (lat2 - lat1)^2) : ℚ) : ℝ) ≤ ((maxR^2 : ℚ) : ℝ) := by
      exact_mod_cast hle
    push_cast at this
    linarith
  · rintro ⟨hR, hle⟩
    refine ⟨by exact_mod_cast hR, ?_⟩
    have : ((12321 * ((lng2 - lng1)^2 + (lat2 - lat1)^2) : ℚ) : ℝ) ≤ ((maxR^2 : ℚ) : ℝ) := by
      push_cast
      linarith
    exact_mod_cast this

/-- Claim C8: for every event and active subscription in the publisher's
list, the subscription's callback is invoked (i.e. it is in the result of
`notify_subscribers`) iff the event type is among the subscription's event
types, the priority is among its priorities, and either the filter list is
empty or some filter with a center and radius is within
`sqrt((Δlng)² + (Δlat)²) × 111 ≤ filter.radius + event.radius` of the event
(the source's flat-plane distance). -/
theorem claim_C8 (subscribers : List EventCollector.EventSubscription)
    (event : EventCollector.TrafficEvent) (s : EventCollector.EventSubscription)
    (hs : s ∈ subscribers) (hactive : s.active = true)
    (hfilters : ∀ f ∈ s.location_filters, f.center.isSome = true ∧
      f.radius_km.isSome = true) :
    s ∈ EventCollector.notify_subscribers subscribers event ↔
      (event.event_type ∈ s.event_types ∧ event.priority ∈ s.priority_filters ∧
        (s.location_filters = [] ∨ ∃ f ∈ s.location_filters, ∃ clng clat r,
          f.center = some (clng, clat) ∧ f.radius_km = some r ∧
          Real.sqrt (((clng : ℝ) - (event.location_lng : ℝ))^2 +
              ((clat : ℝ) - (event.location_lat : ℝ))^2) * 111 ≤
            (r : ℝ) + (event.radius_km : ℝ))) := by
  rw [EventCollector.notify_subscribers, List.mem_filter]
  simp only [Bool.and_eq_true, decide_eq_true_eq]
  constructor
  · rintro ⟨-, ⟨⟨-, hty⟩, hpr⟩, hloc⟩
    refine ⟨hty, hpr, ?_⟩
    rw [EventCollector.matches_location_filter, Bool.or_eq_true] at hloc
    rcases hloc with hemp | hany
    · exact Or.inl (List.isEmpty_iff.mp hemp)
    · right
      rcases List.any_eq_true.mp hany with ⟨f, hf, hmatch⟩
      refine ⟨f, hf, ?_⟩
      rcases hfilters f hf with ⟨hc, hr⟩
      rcases Option.isSome_iff_exists.mp hc with ⟨c, hceq⟩
      rcases Option.isSome_iff_exists.mp hr with ⟨r, hreq⟩
      refine ⟨c.1, c.2, r, by rw [hceq], hreq, ?_⟩
      rw [EventCollector.matchesFilter, hceq, hreq] at hmatch
      have := (distance_le_iff event.location_lng event.location_lat c.1 c.2
        (r + event.radius_km)).mp hmatch
      push_cast at this
      exact this
  · rintro ⟨hty, hpr, hloc⟩
    refine ⟨hs, ⟨⟨hactive, hty⟩, hpr⟩, ?_⟩
    rw [EventCollector.matches_location_filter, Bool.or_eq_true]
    rcases hloc with hemp | ⟨f, hf, clng, clat, r, hceq, hreq, hdist⟩
    · exact Or.inl (List.isEmpty_iff.mpr hemp)
    · right
      refine List.any_eq_true.mpr ⟨f, hf, ?_⟩
      rw [EventCollector.matchesFilter, hceq, hreq]
      refine (distance_le_iff event.location_lng event.location_lat clng clat
        (r + event.radius_km)).mpr ?_
      push_cast
      exact hdist

/-- Witness for claim C8 at a concrete subscription (one filter centered at
the event's own location, radius 5) and a concrete critical accident event. -/
theorem claim_C8_witness :
    EventCollector.c8sub ∈
        EventCollector.notify_subscribers [EventCollector.c8sub] EventCollector.c8event ↔
      (EventCollector.c8event.event_type ∈ EventCollector.c8sub.event_types ∧
        EventCollector.c8event.priority ∈ EventCollector.c8sub.priority_filters ∧
        (EventCollector.c8sub.location_filters = [] ∨
          ∃ f ∈ EventCollector.c8sub.location_filters, ∃ clng clat r,
            f.center = some (clng, clat) ∧ f.radius_km = some r ∧
            Real.sqrt (((clng : ℝ) - (EventCollector.c8event.location_lng : ℝ))^2 +
                ((clat : ℝ) - (EventCollector.c8event.location_lat : ℝ))^2) * 111 ≤
              (r : ℝ) + (EventCollector.c8event.radius_km : ℝ))) :=
  claim_C8 [EventCollector.c8sub] EventCollector.c8event EventCollector.c8sub
    (by simp) (by rfl)
    (by intro f hf; simp [EventCollector.c8sub] at hf; simp [hf])

/- ===================== theorems: tiered cache ===================== -/

namespace SmartCache

theorem pvDecode_encode (v : PyValue) : pvDecode (pvEncode v) = some v := by
  cases v <;> rfl

theorem pickleLoads_dumps (v : PyValue) : pickleLoads (pickleDumps v) = some v := by
  simp [pickleLoads, pickleDumps, pvDecode_encode]

theorem gzip_decompress_compress (b : List Nat) :
    gzip_decompress (gzip_compress b) = some b := rfl

theorem gzip_decompress_dumps (v : PyValue) :
    gzip_decompress (pickleDumps v) = none := rfl

theorem decompress_compress (config : CacheConfig) (v : PyValue)
    (h : config.enable_compression = true) :
    decompress_if_needed (compress_if_needed config v).1 = v := by
  rw [compress_if_needed, h]
  simp only [Bool.not_true, Bool.false_eq_true, if_false]
  split
  · simp [decompress_if_needed, gzip_decompress_compress, pickleLoads_dumps]
  · simp [decompress_if_needed, gzip_decompress_dumps, decompress_fallback,
      pickleLoads_dumps]

theorem lookup_append_of_none {α : Type} {l l' : List (String × α)} {k : String}
    (h : l.lookup k = none) : (l ++ l').lookup k = l'.lookup k := by
  induction l with
  | nil => rfl
  | cons a t ih =>
    obtain ⟨a1, a2⟩ := a
    rcases hbeq : (k == a1) with _ | _
    · simp only [List.cons_append, List.lookup_cons, hbeq] at h ⊢
      exact ih h
    · simp only [List.lookup_cons, hbeq] at h
      exact absurd h (by simp)

theorem lookup_map_replace {α : Type} (l : List (String × α)) (k : String) (e : α)
    (h : (l.lookup k).isSome = true) :
    ((l.map fun kv => if kv.1 = k then (k, e) else kv).lookup k) = some e := by
  induction l with
  | nil => simp [List.lookup] at h
  | cons a t ih =>
    obtain ⟨a1, a2⟩ := a
    by_cases hak : a1 = k
    · subst hak
      simp [List.lookup_cons]
    · have hbeq : (k == a1) = false :=
        beq_eq_false_iff_ne.mpr fun hc => hak hc.symm
      simp only [List.map_cons, if_neg hak]
      simp only [List.lookup_cons, hbeq]
      apply ih
      simp only [List.lookup_cons, hbeq] at h
      exact h

theorem lru_put_lookup (c : LRUMemoryCache) (key : String) (entry : CacheEntry)
    (hsz : 1 ≤ c.max_size) :
    ∃ c', c.put key entry = .ok c' ∧ c'.cache.lookup key = some entry := by
  rw [LRUMemoryCache.put]
  by_cases hmem : (c.cache.lookup key).isSome = true
  · rw [if_pos hmem]
    exact ⟨_, rfl, lookup_map_replace c.cache key entry hmem⟩
  · rw [if_neg hmem]
    have hnone : c.cache.lookup key = none := by
      rcases h : c.cache.lookup key with _ | e
      · rfl
      · rw [h] at hmem; simp at hmem
    have hsingle : ([(key, entry)] : List (String × CacheEntry)).lookup key = some entry := by
      simp [List.lookup]
    split
    · rename_i hcap
      match hc : c.cache with
      | [] =>
        rw [hc] at hcap
        simp at hcap
        omega
      | a :: rest =>
        refine ⟨_, rfl, ?_⟩
        have hrest : rest.lookup key = none := by
          rw [hc, List.lookup] at hnone
          rcases hbeq : (key == a.1) with _ | _
          · rw [hbeq] at hnone
            simpa using hnone
          · rw [hbeq] at hnone
            simp at hnone
        rw [lookup_append_of_none hrest, hsingle]
    · exact ⟨_, rfl, by rw [lookup_append_of_none hnone, hsingle]⟩

theorem putToL2_l1 (m : SmartCacheManager) (key : String) (entry : CacheEntry)
    (now : ℚ) : (SmartCacheManager.putToL2 m key entry now).l1_cache = m.l1_cache := by
  rw [SmartCacheManager.putToL2]
  cases m.l2_cache <;> rfl

theorem lru_get_of_lookup (c : LRUMemoryCache) (key : String) (e : CacheEntry)
    (now : ℚ) (h : c.cache.lookup key = some e) :
    (c.get key now).1 =
      some { e with last_accessed := now, access_count := e.access_count + 1 } := by
  rw [LRUMemoryCache.get, h]

end SmartCache

/-- Claim C4: cache round-trip — for every manager state with the L1 tier
enabled (capacity at least 1) and compression enabled, every key, positive
TTL and serializable value (compressed or not, depending on its serialized
size versus the threshold), `put` succeeds and an immediate `get` returns a
value equal to the one stored. -/
theorem claim_C4 (m : SmartCache.SmartCacheManager) (l1 : SmartCache.LRUMemoryCache)
    (key : String) (v : SmartCache.PyValue) (ttl : ℚ) (now nowg : ℚ)
    (hl1 : m.l1_cache = some l1) (hsz : 1 ≤ l1.max_size)
    (hcomp : m.config.enable_compression = true) (httl : 0 < ttl) :
    ∃ m', SmartCache.SmartCacheManager.put m key v (some ttl) now = .ok (true, m') ∧
      ∃ m'', SmartCache.SmartCacheManager.get m' key nowg =
        .ok (some v, m'') := by
  simp only [SmartCache.SmartCacheManager.put, hl1]
  rcases SmartCache.lru_put_lookup l1 key
    { key := key, value := (SmartCache.compress_if_needed m.config v).1,
      created_at := now, last_accessed := now, ttl := (some ttl).getD m.config.memory_ttl,
      size_bytes := SmartCache.pvLen (SmartCache.compress_if_needed m.config v).1,
      is_compressed := (SmartCache.compress_if_needed m.config v).2 } hsz with
    ⟨l1x, hput, hlook⟩
  rw [hput]
  refine ⟨_, rfl, ?_⟩
  have hget := SmartCache.lru_get_of_lookup l1x key _ nowg hlook
  simp only [SmartCache.SmartCacheManager.get, SmartCache.putToL2_l1, hget]
  rw [SmartCache.decompress_compress m.config v hcomp]
  exact ⟨_, rfl⟩

/-- Witness for claim C4: the fresh default manager, key "k", value 42,
TTL 10 stored at instant 0 and read back at instant 5. -/
theorem claim_C4_witness :
    ∃ m', SmartCache.SmartCacheManager.put SmartCache.c3mgr "k" (.pnat 42) (some 10) 0 =
        .ok (true, m') ∧
      ∃ m'', SmartCache.SmartCacheManager.get m' "k" 5 = .ok (some (.pnat 42), m'') :=
  claim_C4 SmartCache.c3mgr { max_size := 1000 } "k" (.pnat 42) 10 0 5 rfl
    (by norm_num) rfl (by norm_num)

/-- Claim C3 counterexample: on the fresh default manager, `put k v` with TTL
10 at instant 0 followed by `get k` at instant 20 — more than `ttl` past
`created_at`, with no sweep run and no delete — still returns the value from
the L1 tier (whose `get` performs no TTL check), not a miss. -/
theorem claim_C3_counterexample :
    (10 : ℚ) < 20 - 0 ∧
    ((SmartCache.SmartCacheManager.put SmartCache.c3mgr "k" (.pnat 42) (some 10) 0).bind
        fun r => (SmartCache.SmartCacheManager.get r.2 "k" 20).map fun g => g.1) =
      .ok (some (.pnat 42)) := by
  exact ⟨by norm_num, rfl⟩

/-- Claim C3 (amended): the L2 (Redis) tier never serves an entry beyond
`created_at + ttl` (native expiry plus the read-time check-and-delete), and
once the background sweep has run after expiry, `get` on a default-config
manager misses; but until the sweep runs the L1 tier can serve an expired
entry (see the counterexample). -/
theorem claim_C3_amended :
    (∀ (l2 : SmartCache.RedisCache) (key : String) (now : ℚ) (e : SmartCache.CacheEntry),
      (l2.get key now).1 = some e → now - e.created_at ≤ e.ttl) ∧
    (∀ (conn : Bool) (key : String) (v : SmartCache.PyValue) (ttl t0 now : ℚ),
      ttl < now - t0 →
      ∀ r, (SmartCache.mkManager {} conn).put key v (some ttl) t0 = .ok r →
        ((r.2.cleanupRun now).get key now).map (fun g => g.1) = .ok none) := by
  constructor
  · intro l2 key now e h
    rw [SmartCache.RedisCache.get] at h
    rcases hconn : l2.connected with _ | _
    · simp [hconn] at h
    · simp only [hconn, Bool.not_true, Bool.false_eq_true, if_false] at h
      rcases hl : l2.store.lookup key with _ | ee
      · rw [hl] at h; simp at h
      · simp only [hl] at h
        split_ifs at h with h1 h2
        obtain rfl : ee.1 = e := Option.some.inj h
        linarith [not_lt.mp h2]
  · intro conn key v ttl t0 now hexp r hr
    have hd : decide (ttl < now - t0) = true := decide_eq_true hexp
    have hnl : ¬ (now < t0 + ttl) := by linarith
    rcases conn with _ | _
    · simp only [SmartCache.mkManager, SmartCache.SmartCacheManager.put,
        SmartCache.LRUMemoryCache.put, SmartCache.SmartCacheManager.putToL2,
        SmartCache.RedisCache.put, List.lookup_nil, Option.isSome_none,
        Bool.false_eq_true, if_false, if_true, List.length_nil, List.nil_append,
        Bool.not_false, if_neg (by norm_num : ¬ (1000 ≤ 0)),
        Except.ok.injEq] at hr
      subst hr
      simp [SmartCache.SmartCacheManager.cleanupRun,
        SmartCache.LRUMemoryCache.cleanup_expired, SmartCache.SmartCacheManager.get,
        SmartCache.LRUMemoryCache.get, SmartCache.SmartCacheManager.getFromL2,
        SmartCache.RedisCache.get, List.filter, hd, Except.map]
    · simp only [SmartCache.mkManager, SmartCache.SmartCacheManager.put,
        SmartCache.LRUMemoryCache.put, SmartCache.SmartCacheManager.putToL2,
        SmartCache.RedisCache.put, List.lookup_nil, Option.isSome_none,
        Bool.false_eq_true, if_false, if_true, List.length_nil, List.nil_append,
        Bool.not_true, if_neg (by norm_num : ¬ (1000 ≤ 0)),
        List.filter, Except.ok.injEq] at hr
      subst hr
      simp [SmartCache.SmartCacheManager.cleanupRun,
        SmartCache.LRUMemoryCache.cleanup_expired, SmartCache.SmartCacheManager.get,
        SmartCache.LRUMemoryCache.get, SmartCache.SmartCacheManager.getFromL2,
        SmartCache.RedisCache.get, List.filter, hd, hnl,
        List.lookup_cons, Except.map]

/-- Witness for the amended claim C3: the concrete connected Redis tier
`c3redis` holds `c3entry` (`created_at = 0`, `ttl = 300`); a read at instant 5
serves it, so instant 5 is within the TTL. -/
theorem claim_C3_amended_witness :
    (5 : ℚ) - SmartCache.c3entry.created_at ≤ SmartCache.c3entry.ttl :=
  claim_C3_amended.1 SmartCache.c3redis "k" 5 SmartCache.c3entry
    (by norm_num [SmartCache.RedisCache.get, SmartCache.c3redis, SmartCache.c3entry,
      List.lookup_cons])

/- ===================== theorems: event queue, concrete scenarios ===================== -/

/-- Claim C10: `EventQueue.put` is not total on its stated input domain: with
an event of priority rank 1 and timestamp 5 already enqueued, pushing a
second, distinct event with the same rank and timestamp makes the heap
comparison fall back to ordering the `TrafficEvent` payloads and raise a
`TypeError`, which `put` does not catch (only `IndexError` is). -/
theorem claim_C10 :
    EventCollector.evKey (EventCollector.mkEv "a" .CRITICAL 5) =
      EventCollector.evKey (EventCollector.mkEv "b" .CRITICAL 5) ∧
    EventCollector.mkEv "a" .CRITICAL 5 ≠ EventCollector.mkEv "b" .CRITICAL 5 ∧
    ((EventCollector.EventQueue.putAll { max_size := 10000 }
        [EventCollector.mkEv "a" .CRITICAL 5]).bind
      fun q => q.put (EventCollector.mkEv "b" .CRITICAL 5)) = .error .typeError := by
  refine ⟨rfl, ?_, ?_⟩
  · intro h
    have := congrArg EventCollector.TrafficEvent.event_id h
    simp [EventCollector.mkEv] at this
  · norm_num [EventCollector.EventQueue.putAll, EventCollector.EventQueue.put,
      EventCollector.heappush, EventCollector.heappop, EventCollector.siftdownLoop,
      EventCollector.siftupLoop, EventCollector.entLt, EventCollector.mkEv,
      EventCollector.EventPriority.value, Except.bind, Except.map]

namespace EventCollector

set_option maxHeartbeats 1000000 in
theorem c1_step1 :
    EventQueue.putAll { max_size := 2 } [c1crit, c1low] =
      .ok { max_size := 2, queue := [(1, 0, c1crit), (4, 1, c1low)], total_events := 2 } := by
  norm_num [EventQueue.putAll, EventQueue.put, heappush, heappop, siftdownLoop,
    siftupLoop, entLt, EventPriority.value, c1crit, c1low, mkEv]

set_option maxHeartbeats 1000000 in
theorem c1_pop :
    heappop [(1, 0, c1crit), (4, 1, c1low)] = .ok ((1, 0, c1crit), [(4, 1, c1low)]) := by
  rw [heappop]
  simp only [List.getLastD, List.dropLast, List.length, List.set]
  rw [siftupLoop]
  norm_num
  rw [siftdownLoop]
  norm_num [Except.map]

set_option maxHeartbeats 1000000 in
theorem c1_push :
    heappush [(4, 1, c1low)] (c1med.priority.value, c1med.timestamp, c1med) =
      .ok [(3, 2, c1med), (4, 1, c1low)] := by
  rw [heappush]
  norm_num [c1med, mkEv, EventPriority.value]
  rw [siftdownLoop, dif_pos (by norm_num)]
  norm_num [entLt, c1med, mkEv, EventPriority.value]
  rw [siftdownLoop]
  norm_num [c1med, mkEv]

set_option maxHeartbeats 1000000 in
theorem c1_step2 :
    EventQueue.put { max_size := 2, queue := [(1, 0, c1crit), (4, 1, c1low)], total_events := 2 }
      c1med =
    .ok (true,
      { max_size := 2
        queue := [(3, 2, c1med), (4, 1, c1low)]
        total_events := 3
        dropped_events := 1 }) := by
  rw [EventQueue.put]
  norm_num [c1_pop, c1_push, Except.map]

end EventCollector

/-- Claim C1, behavior at the failing input: a queue of capacity 2 holding a
critical (rank 1, t=0) and a low (rank 4, t=1) event; pushing a medium event
(rank 3, t=2) increments `dropped_events` and returns `true` as the claim
says, but the element discarded by the `heapq.heappop` call is the critical
event — the minimum of `(priority_rank, timestamp)`, i.e. the
highest-priority entry — not the maximum as the claim (and the code's own
"丢弃最低优先级事件" log message) state. -/
theorem claim_C1_failing_input :
    EventCollector.keyLt (EventCollector.evKey EventCollector.c1crit)
      (EventCollector.evKey EventCollector.c1low) ∧
    EventCollector.keyLt (EventCollector.evKey EventCollector.c1crit)
      (EventCollector.evKey EventCollector.c1med) ∧
    ((EventCollector.EventQueue.putAll { max_size := 2 }
        [EventCollector.c1crit, EventCollector.c1low]).bind
      fun q => (EventCollector.heappop q.queue).map fun d => d.1.2.2) =
      .ok EventCollector.c1crit ∧
    ((EventCollector.EventQueue.putAll { max_size := 2 }
        [EventCollector.c1crit, EventCollector.c1low]).bind
      fun q => (q.put EventCollector.c1med).map fun r =>
        (r.1, r.2.dropped_events, r.2.queue.map fun en => en.2.2)) =
      .ok (true, 1, [EventCollector.c1med, EventCollector.c1low]) := by
  refine ⟨?_, ?_, ?_, ?_⟩
  · norm_num [EventCollector.keyLt, EventCollector.evKey, EventCollector.c1crit,
      EventCollector.c1low, EventCollector.mkEv, EventCollector.EventPriority.value]
  · norm_num [EventCollector.keyLt, EventCollector.evKey, EventCollector.c1crit,
      EventCollector.c1med, EventCollector.mkEv, EventCollector.EventPriority.value]
  · rw [EventCollector.c1_step1]
    simp [Except.bind, EventCollector.c1_pop, Except.map]
  · rw [EventCollector.c1_step1]
    simp [Except.bind, EventCollector.c1_step2, Except.map]

/- ===================== theorems: heap order infrastructure ===================== -/

namespace EventCollector

theorem keyLt_irrefl (a : Nat × ℚ) : ¬ keyLt a a := by
  unfold keyLt
  rintro (h | ⟨-, h⟩) <;> exact lt_irrefl _ h

theorem keyLt_trans {a b c : Nat × ℚ} (h1 : keyLt a b) (h2 : keyLt b c) : keyLt a c := by
  unfold keyLt at h1 h2 ⊢
  rcases h1 with h1 | ⟨e1, h1⟩ <;> rcases h2 with h2 | ⟨e2, h2⟩
  · exact Or.inl (lt_trans h1 h2)
  · exact Or.inl (e2 ▸ h1)
  · exact Or.inl (e1 ▸ h2)
  · exact Or.inr ⟨e1.trans e2, lt_trans h1 h2⟩

theorem keyLt_asymm {a b : Nat × ℚ} (h : keyLt a b) : ¬ keyLt b a :=
  fun h' => keyLt_irrefl a (keyLt_trans h h')

theorem keyLt_trichotomy (a b : Nat × ℚ) : keyLt a b ∨ a = b ∨ keyLt b a := by
  unfold keyLt
  rcases lt_trichotomy a.1 b.1 with h | h | h
  · exact Or.inl (Or.inl h)
  · rcases lt_trichotomy a.2 b.2 with h2 | h2 | h2
    · exact Or.inl (Or.inr ⟨h, h2⟩)
    · exact Or.inr (Or.inl (Prod.ext h h2))
    · exact Or.inr (Or.inr (Or.inr ⟨h.symm, h2⟩))
  · exact Or.inr (Or.inr (Or.inl h))

theorem keyLe_refl (a : Nat × ℚ) : keyLe a a := keyLt_irrefl a

theorem keyLe_of_keyLt {a b : Nat × ℚ} (h : keyLt a b) : keyLe a b := keyLt_asymm h

theorem keyLt_of_ne_of_not_keyLt {a b : Nat × ℚ} (hne : a ≠ b) (h : ¬ keyLt a b) :
    keyLt b a := by
  rcases keyLt_trichotomy a b with hh | hh | hh
  · exact absurd hh h
  · exact absurd hh hne
  · exact hh

theorem keyLe_trans {a b c : Nat × ℚ} (h1 : keyLe a b) (h2 : keyLe b c) : keyLe a c := by
  intro hca
  rcases keyLt_trichotomy a b with hh | hh | hh
  · exact h2 (keyLt_trans hca hh)
  · exact h2 (hh ▸ hca)
  · exact h1 hh

theorem keyLt_of_keyLt_of_keyLe {a b c : Nat × ℚ} (h1 : keyLt a b) (h2 : keyLe b c) :
    keyLt a c := by
  rcases keyLt_trichotomy a c with hh | hh | hh
  · exact hh
  · exact absurd (hh ▸ h1) h2
  · exact absurd (keyLt_trans hh h1) h2

theorem keyLt_of_keyLe_of_keyLt {a b c : Nat × ℚ} (h1 : keyLe a b) (h2 : keyLt b c) :
    keyLt a c := by
  rcases keyLt_trichotomy a c with hh | hh | hh
  · exact hh
  · exact absurd (hh ▸ h2) h1
  · exact absurd (keyLt_trans h2 hh) h1

theorem getD_set_self {α : Type} [Inhabited α] (l : List α) (i : Nat) (a : α)
    (h : i < l.length) : (l.set i a).getD i default = a := by
  rw [List.getD_eq_getElem?_getD, List.getElem?_set_self h]
  rfl

theorem getD_set_ne {α : Type} [Inhabited α] (l : List α) {i j : Nat} (a : α)
    (h : i ≠ j) : (l.set i a).getD j default = l.getD j default := by
  rw [List.getD_eq_getElem?_getD, List.getElem?_set_ne h, ← List.getD_eq_getElem?_getD]

theorem set_cons_perm {α : Type} [Inhabited α] :
    ∀ (l : List α) (n : Nat) (a : α), n < l.length →
      (l.getD n default :: l.set n a).Perm (a :: l)
  | [], n, a, h => absurd h (by simp)
  | x :: t, 0, a, _ => by
      simp only [List.getD_cons_zero, List.set]
      exact List.Perm.swap _ _ _
  | x :: t, n+1, a, h => by
      simp only [List.getD_cons_succ, List.set]
      exact (List.Perm.swap x (t.getD n default) (t.set n a)).trans
        (((set_cons_perm t n a (by simpa using h)).cons x).trans
          (List.Perm.swap a x t))

theorem set_set_swap_perm {α : Type} [Inhabited α] (l : List α) {i j : Nat} (a : α)
    (hi : i < l.length) (hj : j < l.length) (hij : i ≠ j) :
    ((l.set i (l.getD j default)).set j a).Perm (l.set i a) := by
  have h1 : ((l.set i (l.getD j default)).getD j default ::
      (l.set i (l.getD j default)).set j a).Perm (a :: l.set i (l.getD j default)) :=
    set_cons_perm _ j a (by simpa using hj)
  rw [getD_set_ne l (l.getD j default) hij] at h1
  have h2 : (l.getD i default :: l.set i (l.getD j default)).Perm
      (l.getD j default :: l) := set_cons_perm l i (l.getD j default) hi
  have h3 : (l.getD i default :: l.set i a).Perm (a :: l) := set_cons_perm l i a hi
  have c1 : (l.getD i default :: l.getD j default ::
      (l.set i (l.getD j default)).set j a).Perm
      (l.getD i default :: l.getD j default :: l.set i a) :=
    (h1.cons _).trans ((List.Perm.swap _ _ _).trans ((h2.cons a).trans
      ((List.Perm.swap _ _ _).trans ((h3.symm.cons _).trans (List.Perm.swap _ _ _)))))
  exact c1.cons_inv.cons_inv

theorem kND_getD_ne {l : List Ent} (h : kND l) {i j : Nat} (hij : i < j)
    (hj : j < l.length) :
    entKey (l.getD i default) ≠ entKey (l.getD j default) := by
  rw [kND, List.pairwise_iff_get] at h
  have hi : i < l.length := lt_trans hij hj
  rw [List.getD_eq_getElem l default hi, List.getD_eq_getElem l default hj]
  exact h ⟨i, hi⟩ ⟨j, hj⟩ hij

theorem kND_getD_ne_of_ne {l : List Ent} (h : kND l) {i j : Nat} (hij : i ≠ j)
    (hi : i < l.length) (hj : j < l.length) :
    entKey (l.getD i default) ≠ entKey (l.getD j default) := by
  rcases lt_or_gt_of_ne hij with hh | hh
  · exact kND_getD_ne h hh hj
  · exact (kND_getD_ne h hh hi).symm

theorem kND_of_perm {l l' : List Ent} (hp : l.Perm l') (h : kND l) : kND l' :=
  (hp.pairwise_iff fun hxy => hxy ∘ Eq.symm).mp h

theorem kND_sublist {l l' : List Ent} (hs : l'.Sublist l) (h : kND l) : kND l' :=
  List.Pairwise.sublist hs h

theorem entLt_eq_decide {a b : Ent} (h : entKey a ≠ entKey b) :
    entLt a b = .ok (decide (keyLt (entKey a) (entKey b))) := by
  unfold entLt
  by_cases h1 : a.1 = b.1
  · by_cases h2 : a.2.1 = b.2.1
    · exact absurd (show entKey a = entKey b from Prod.ext h1 h2) h
    · rw [if_pos h1, if_neg h2]
      congr 1
      rw [decide_eq_decide]
      unfold keyLt entKey
      simp [h1, lt_irrefl]
  · rw [if_neg h1]
    congr 1
    rw [decide_eq_decide]
    unfold keyLt entKey
    constructor
    · exact fun hh => Or.inl hh
    · rintro (hh | ⟨e, -⟩)
      · exact hh
      · exact absurd e h1

theorem siftdown_spec (x : Ent) :
    ∀ (pos : Nat) (h : List Ent), pos < h.length →
    (∀ i, i < pos → entKey (h.getD i default) ≠ entKey x) →
    (∀ j, 0 < j → j < h.length → j ≠ pos →
      keyLe (entKey ((h.set pos x).getD ((j - 1) / 2) default))
        (entKey ((h.set pos x).getD j default))) →
    (0 < pos → ∀ c, c < h.length → (c - 1) / 2 = pos →
      keyLe (entKey ((h.set pos x).getD ((pos - 1) / 2) default))
        (entKey ((h.set pos x).getD c default))) →
    ∃ h', siftdownLoop x 0 pos h = .ok h' ∧
      h'.length = h.length ∧ h'.Perm (h.set pos x) ∧ HeapOrd h' := by
  intro pos
  induction pos using Nat.strong_induction_on with
  | _ pos ih =>
    intro h hpos Hdist HA HB
    rw [siftdownLoop]
    by_cases hp : 0 < pos
    · rw [dif_pos hp]
      dsimp only
      have hpplt : (pos - 1) / 2 < pos := by omega
      have hpplen : (pos - 1) / 2 < h.length := lt_trans hpplt hpos
      have hkne : entKey x ≠ entKey (h.getD ((pos - 1) / 2) default) :=
        (Hdist _ hpplt).symm
      rw [entLt_eq_decide hkne]
      by_cases hlt : keyLt (entKey x) (entKey (h.getD ((pos - 1) / 2) default))
      · simp only [decide_eq_true hlt]
        -- step case: the parent moves down into pos, recurse at parentpos
        have hppos : ((pos - 1) / 2) ≠ pos := Nat.ne_of_lt hpplt
        have hlen2 : (h.set pos (h.getD ((pos - 1) / 2) default)).length = h.length := by
          simp
        -- getD facts for g' := (h.set pos parent).set parentpos x versus g := h.set pos x
        have e2 : ((h.set pos (h.getD ((pos - 1) / 2) default)).set ((pos - 1) / 2)
            x).getD ((pos - 1) / 2) default = x :=
          getD_set_self _ _ _ (by simpa [hlen2] using hpplen)
        have e3 : ((h.set pos (h.getD ((pos - 1) / 2) default)).set ((pos - 1) / 2)
            x).getD pos default = h.getD ((pos - 1) / 2) default := by
          rw [getD_set_ne _ x hppos]
          exact getD_set_self _ _ _ hpos
        have e1 : ∀ k, k ≠ pos → k ≠ (pos - 1) / 2 →
            ((h.set pos (h.getD ((pos - 1) / 2) default)).set ((pos - 1) / 2)
              x).getD k default = (h.set pos x).getD k default := by
          intro k hk1 hk2
          rw [getD_set_ne _ x hk2.symm, getD_set_ne _ _ hk1.symm,
            getD_set_ne _ _ hk1.symm]
        have egk : ∀ k, k ≠ pos → (h.set pos x).getD k default = h.getD k default :=
          fun k hk => getD_set_ne _ _ (fun hc => hk hc.symm)
        have egp : (h.set pos x).getD pos default = x := getD_set_self _ _ _ hpos
        rcases ih ((pos - 1) / 2) hpplt (h.set pos (h.getD ((pos - 1) / 2) default))
          (by simpa [hlen2] using hpplen)
          (by
            intro i hi
            rw [getD_set_ne _ _ (Nat.ne_of_lt (lt_trans hi hpplt)).symm]
            exact Hdist i (lt_trans hi hpplt))
          (by
            intro j hj0 hjlen hjne
            rw [hlen2] at hjlen
            by_cases hjpos : j = pos
            · rw [hjpos, e2, e3]
              exact keyLt_asymm hlt
            · by_cases hcj : (j - 1) / 2 = pos
              · -- child of pos: use HB
                rw [e1 j hjpos (by omega), hcj, e3]
                have := HB hp j hjlen hcj
                rw [egk _ hppos] at this
                exact this
              · by_cases hpj : (j - 1) / 2 = (pos - 1) / 2
                · -- sibling subtree of parentpos
                  rw [e1 j hjpos (fun hc => hjne hc), hpj, e2]
                  have hA := HA j hj0 hjlen hjpos
                  rw [hpj, egk _ hppos] at hA
                  have hx : keyLt (entKey x) (entKey ((h.set pos x).getD j default)) := by
                    rcases keyLt_trichotomy (entKey x)
                        (entKey ((h.set pos x).getD j default)) with hh | hh | hh
                    · exact hh
                    · exact absurd (hh ▸ hlt) hA
                    · exact absurd (keyLt_trans hh hlt) hA
                  exact keyLe_of_keyLt hx
                · rw [e1 j hjpos (fun hc => hjne hc), e1 _ hcj hpj]
                  exact HA j hj0 hjlen hjpos)
          (by
            intro hpp0 c hclen hcp
            rw [hlen2] at hclen
            have hgp_ne_pos : ((pos - 1) / 2 - 1) / 2 ≠ pos := by omega
            have hgp_ne_pp : ((pos - 1) / 2 - 1) / 2 ≠ (pos - 1) / 2 := by omega
            rw [e1 _ hgp_ne_pos hgp_ne_pp]
            have hApp := HA ((pos - 1) / 2) hpp0 hpplen hppos
            rw [egk _ hppos] at hApp
            by_cases hcpos : c = pos
            · subst hcpos
              rw [e3]
              exact hApp
            · have hcpp : c ≠ (pos - 1) / 2 := by omega
              rw [e1 c hcpos hcpp]
              have hAc := HA c (by omega) hclen hcpos
              rw [hcp, egk _ hppos] at hAc
              exact keyLe_trans hApp hAc) with ⟨h', heq, hlen', hperm, hord⟩
        refine ⟨h', heq, ?_, ?_, hord⟩
        · rw [hlen', hlen2]
        · exact hperm.trans (set_set_swap_perm h x hpos hpplen hppos.symm)
      · simp only [decide_eq_false hlt]
        refine ⟨h.set pos x, rfl, by simp, List.Perm.refl _, ?_⟩
        intro j hj0 hjlen
        rw [List.length_set] at hjlen
        by_cases hjpos : j = pos
        · rw [hjpos, getD_set_self _ _ _ hpos,
            getD_set_ne _ _ (Nat.ne_of_lt hpplt).symm]
          exact hlt
        · exact HA j hj0 hjlen hjpos
    · rw [dif_neg hp]
      have hpos0 : pos = 0 := by omega
      refine ⟨h.set pos x, rfl, by simp, List.Perm.refl _, ?_⟩
      intro j hj0 hjlen
      rw [List.length_set] at hjlen
      exact HA j hj0 hjlen (by omega)

theorem heapOrd_root_min {h : List Ent} (hord : HeapOrd h) :
    ∀ j, j < h.length → keyLe (entKey (h.getD 0 default)) (entKey (h.getD j default)) := by
  intro j
  induction j using Nat.strong_induction_on with
  | _ j ih =>
    intro hj
    rcases Nat.eq_zero_or_pos j with hj0 | hj0
    · subst hj0; exact keyLe_refl _
    · exact keyLe_trans (ih ((j - 1) / 2) (by omega) (lt_trans (by omega) hj))
        (hord j hj0 hj)

theorem siftup_go (x : Ent) (endp : Nat) :
    ∀ (k pos : Nat) (h : List Ent), endp - pos ≤ k → endp = h.length →
    pos < h.length →
    kND (h.set pos x) →
    (∀ j, 0 < j → j < h.length → j ≠ pos → (j - 1) / 2 ≠ pos →
      keyLe (entKey ((h.set pos x).getD ((j - 1) / 2) default))
        (entKey ((h.set pos x).getD j default))) →
    (0 < pos → ∀ c, c < h.length → (c - 1) / 2 = pos →
      keyLe (entKey ((h.set pos x).getD ((pos - 1) / 2) default))
        (entKey ((h.set pos x).getD c default))) →
    ∃ h', siftupLoop x endp 0 pos h = .ok h' ∧
      h'.length = h.length ∧ h'.Perm (h.set pos x) ∧ HeapOrd h' := by
  intro k
  induction k with
  | zero =>
    intro pos h hk hend hpos _ _ _
    omega
  | succ k ihk =>
    intro pos h hk hend hpos hknd HA HC
    rw [siftupLoop]
    by_cases hc : 2 * pos + 1 < endp
    · rw [dif_pos hc]
      -- choose the smaller child, then recurse
      have hchl : 2 * pos + 1 < h.length := hend ▸ hc
      have hgoal : ∀ chosen, chosen < h.length → pos < chosen → (chosen - 1) / 2 = pos →
          (∀ o, 0 < o → o < h.length → (o - 1) / 2 = pos → o ≠ chosen →
            keyLe (entKey (h.getD chosen default)) (entKey (h.getD o default))) →
          ∃ h', siftupLoop x endp 0 chosen (h.set pos (h.getD chosen default)) = .ok h' ∧
            h'.length = h.length ∧ h'.Perm (h.set pos x) ∧ HeapOrd h' := by
        intro chosen hchlen hposch hchpar hchmin
        have hchpos : chosen ≠ pos := Nat.ne_of_gt hposch
        have hswap : ((h.set pos (h.getD chosen default)).set chosen x).Perm
            (h.set pos x) := set_set_swap_perm h x hpos hchlen hchpos.symm
        -- getD facts for g' := (h.set pos (h.getD chosen)).set chosen x
        have e1 : ∀ m, m ≠ pos → m ≠ chosen →
            ((h.set pos (h.getD chosen default)).set chosen x).getD m default =
              (h.set pos x).getD m default := by
          intro m h1 h2
          rw [getD_set_ne _ x h2.symm, getD_set_ne _ _ h1.symm, getD_set_ne _ _ h1.symm]
        have e2 : ((h.set pos (h.getD chosen default)).set chosen x).getD chosen
            default = x := getD_set_self _ _ _ (by simpa using hchlen)
        have e3 : ((h.set pos (h.getD chosen default)).set chosen x).getD pos
            default = h.getD chosen default := by
          rw [getD_set_ne _ x hchpos, getD_set_self _ _ _ hpos]
        have egk : ∀ m, m ≠ pos → (h.set pos x).getD m default = h.getD m default :=
          fun m hm => getD_set_ne _ _ (fun hcc => hm hcc.symm)
        rcases ihk chosen (h.set pos (h.getD chosen default)) (by omega)
          (by simpa using hend) (by simpa using hchlen)
          (kND_of_perm hswap.symm hknd)
          (by
            intro j hj0 hjlen hjch hjparch
            rw [List.length_set] at hjlen
            by_cases hjpos : j = pos
            · -- the hole moved down; edge into the old pos comes from HC
              rcases Nat.eq_zero_or_pos pos with hp0 | hp0
              · omega
              · rw [hjpos, e3]
                have hppne : (pos - 1) / 2 ≠ pos := by omega
                have hppch : (pos - 1) / 2 ≠ chosen := by omega
                rw [e1 _ hppne hppch]
                have := HC hp0 chosen hchlen hchpar
                rw [egk _ hchpos] at this
                exact this
            · by_cases hjp : (j - 1) / 2 = pos
              · -- the other child of pos
                rw [e1 j hjpos (fun hcc => hjch hcc), hjp, e3]
                have := hchmin j hj0 hjlen hjp (fun hcc => hjch hcc)
                rw [egk _ hjpos]
                exact this
              · have hjpne : (j - 1) / 2 ≠ pos := hjp
                rw [e1 j hjpos (fun hcc => hjch hcc), e1 _ hjp hjparch]
                exact HA j hj0 hjlen hjpos hjp)
          (by
            intro _ c hclen hcpar
            rw [List.length_set] at hclen
            have hcch : c ≠ chosen := by omega
            have hcpos : c ≠ pos := by omega
            rw [show (chosen - 1) / 2 = pos from hchpar, e3, e1 c hcpos hcch]
            have hparc_ne : (c - 1) / 2 ≠ pos := by omega
            have := HA c (by omega) hclen hcpos hparc_ne
            rw [hcpar, egk _ hchpos] at this
            rw [egk _ hcpos]
            rw [egk _ hcpos] at this
            exact this) with ⟨h', heq, hlen', hperm, hord⟩
        exact ⟨h', heq, by simpa using hlen', hperm.trans hswap, hord⟩
      by_cases hr : 2 * pos + 1 + 1 < endp
      · rw [dif_pos hr]
        have hrl : 2 * pos + 1 + 1 < h.length := hend ▸ hr
        have hkne : entKey (h.getD (2 * pos + 1) default) ≠
            entKey (h.getD (2 * pos + 1 + 1) default) := by
          have h1 : (h.set pos x).getD (2 * pos + 1) default = h.getD (2 * pos + 1) default :=
            getD_set_ne _ _ (by omega)
          have h2 : (h.set pos x).getD (2 * pos + 1 + 1) default =
              h.getD (2 * pos + 1 + 1) default := getD_set_ne _ _ (by omega)
          have := kND_getD_ne_of_ne hknd (show 2 * pos + 1 ≠ 2 * pos + 1 + 1 by omega)
            (by simpa using hchl) (by simpa using hrl)
          rw [h1, h2] at this
          exact this
        rw [entLt_eq_decide hkne]
        by_cases hlt : keyLt (entKey (h.getD (2 * pos + 1) default))
            (entKey (h.getD (2 * pos + 1 + 1) default))
        · simp only [decide_eq_true hlt]
          have ha3 : pos < 2 * pos + 1 := by omega
          have ha4 : (2 * pos + 1 - 1) / 2 = pos := by omega
          exact hgoal (2 * pos + 1) hchl ha3 ha4
            (by
              intro o ho0 holen hopar hone
              have ho : o = 2 * pos + 1 + 1 := by omega
              rw [ho]
              exact keyLe_of_keyLt hlt)
        · simp only [decide_eq_false hlt]
          have ha3 : pos < 2 * pos + 1 + 1 := by omega
          have ha4 : (2 * pos + 1 + 1 - 1) / 2 = pos := by omega
          exact hgoal (2 * pos + 1 + 1) hrl ha3 ha4
            (by
              intro o ho0 holen hopar hone
              have ho : o = 2 * pos + 1 := by omega
              rw [ho]
              exact hlt)
      · rw [dif_neg hr]
        have ha3 : pos < 2 * pos + 1 := by omega
        have ha4 : (2 * pos + 1 - 1) / 2 = pos := by omega
        exact hgoal (2 * pos + 1) hchl ha3 ha4
          (by intro o ho0 holen hopar hone; omega)
    · rw [dif_neg hc]
      -- leaf reached: final siftdown from the leaf
      have hset : (h.set pos x).set pos x = h.set pos x := List.set_set _ _ _ _
      rcases siftdown_spec x pos (h.set pos x) (by simpa using hpos)
        (by
          intro i hi
          have hne : i ≠ pos := Nat.ne_of_lt hi
          have := kND_getD_ne_of_ne hknd hne (by simp; omega) (by simpa using hpos)
          rw [getD_set_self _ _ _ hpos] at this
          exact this)
        (by
          intro j hj0 hjlen hjpos
          rw [List.length_set] at hjlen
          rw [hset]
          by_cases hjp : (j - 1) / 2 = pos
          · -- j would be a child of pos, impossible past the leaf test
            omega
          · exact HA j hj0 hjlen hjpos hjp)
        (by
          intro hp0 c hclen hcp
          rw [List.length_set] at hclen
          omega) with ⟨h', heq, hlen', hperm, hord⟩
      refine ⟨h', heq, by simpa using hlen', ?_, hord⟩
      rw [hset] at hperm
      exact hperm

theorem getD_append_left {α : Type} [Inhabited α] (l l' : List α) {i : Nat}
    (h : i < l.length) : (l ++ l').getD i default = l.getD i default := by
  rw [List.getD_eq_getElem?_getD, List.getElem?_append_left h,
    ← List.getD_eq_getElem?_getD]

theorem getD_concat_length {α : Type} [Inhabited α] (l : List α) (a : α) :
    (l ++ [a]).getD l.length default = a := by
  rw [List.getD_eq_getElem?_getD, List.getElem?_concat_length]
  rfl

theorem heappush_spec (h : List Ent) (x : Ent) (hord : HeapOrd h)
    (hknd : kND (h ++ [x])) :
    ∃ h', heappush h x = .ok h' ∧ h'.length = h.length + 1 ∧
      h'.Perm (h ++ [x]) ∧ HeapOrd h' ∧ kND h' := by
  have hlen : (h ++ [x]).length = h.length + 1 := by simp
  have hget : (h ++ [x]).getD h.length default = x := getD_concat_length h x
  rcases siftdown_spec x h.length (h ++ [x]) (by omega)
    (by
      intro i hi
      rw [getD_append_left h [x] hi]
      have := kND_getD_ne hknd hi (by omega)
      rw [getD_append_left h [x] hi, hget] at this
      exact this)
    (by
      intro j hj0 hjlen hjne
      rw [hlen] at hjlen
      have hjl : j < h.length := by omega
      have hpl : (j - 1) / 2 < h.length := by omega
      have hjset : ((h ++ [x]).set h.length x).getD j default =
          (h ++ [x]).getD j default := getD_set_ne _ _ (by omega)
      have hpset : ((h ++ [x]).set h.length x).getD ((j - 1) / 2) default =
          (h ++ [x]).getD ((j - 1) / 2) default := getD_set_ne _ _ (by omega)
      rw [hjset, hpset, getD_append_left h [x] hjl, getD_append_left h [x] hpl]
      exact hord j hj0 hjl)
    (by
      intro _ c hclen hcp
      rw [hlen] at hclen
      omega) with ⟨h', heq, hlen', hperm, hord'⟩
  have heq2 : heappush h x = .ok h' := by
    rw [heappush, show (h ++ [x]).length - 1 = h.length by simp]
    exact heq
  have hself : ((h ++ [x]).set h.length x).Perm (h ++ [x]) := by
    have hx : (h ++ [x]).getD h.length default = x := hget
    have := set_cons_perm (h ++ [x]) h.length x (by omega)
    rw [hx] at this
    exact this.cons_inv
  have hperm2 : h'.Perm (h ++ [x]) := hperm.trans hself
  exact ⟨h', heq2, by omega, hperm2, hord', kND_of_perm hperm2.symm hknd⟩

theorem heappop_spec (h : List Ent) (hne : h ≠ []) (hord : HeapOrd h)
    (hknd : kND h) :
    ∃ h', heappop h = .ok (h.getD 0 default, h') ∧
      h'.length = h.length - 1 ∧ (h.getD 0 default :: h').Perm h ∧
      HeapOrd h' ∧ kND h' ∧
      (∀ y ∈ h, keyLe (entKey (h.getD 0 default)) (entKey y)) := by
  have hmin : ∀ y ∈ h, keyLe (entKey (h.getD 0 default)) (entKey y) := by
    intro y hy
    rcases List.mem_iff_get.mp hy with ⟨⟨n, hn⟩, rfl⟩
    rw [List.get_eq_getElem, ← List.getD_eq_getElem h default hn]
    exact heapOrd_root_min hord n hn
  have hdecomp : h.dropLast ++ [h.getLastD default] = h := by
    rw [List.getLastD_eq_getLast?, List.getLast?_eq_getLast h hne]
    exact List.dropLast_append_getLast hne
  match h, hne with
  | [a], _ =>
    exact ⟨[], rfl, rfl, List.Perm.refl _, (by intro j hj0 hjl; simp at hjl),
      List.Pairwise.nil, hmin⟩
  | a :: b :: t, _ =>
    rw [heappop]
    simp only [List.dropLast_cons₂]
    have hrne : (b :: t).dropLast.length + 1 = (b :: t).length := by
      rw [List.length_dropLast]; simp
    -- notation: rest = a :: (b :: t).dropLast, last = (a :: b :: t).getLastD default
    have hrlen : (a :: (b :: t).dropLast).length = (a :: b :: t).length - 1 := by
      simp [List.length_dropLast]
    have hdec2 : (a :: (b :: t).dropLast) ++ [(a :: b :: t).getLastD default] =
        a :: b :: t := by
      have := hdecomp
      simpa [List.dropLast_cons₂] using this
    have hpermc : ((a :: b :: t).getLastD default :: (a :: (b :: t).dropLast)).Perm
        (a :: b :: t) := by
      have h0 := List.perm_append_singleton ((a :: b :: t).getLastD default)
        (a :: (b :: t).dropLast)
      rw [hdec2] at h0
      exact h0.symm
    have hknd2 : kND ((a :: (b :: t).dropLast).set 0 ((a :: b :: t).getLastD default)) := by
      have h1 : ((a :: (b :: t).dropLast).getD 0 default ::
          (a :: (b :: t).dropLast).set 0 ((a :: b :: t).getLastD default)).Perm
          ((a :: b :: t).getLastD default :: (a :: (b :: t).dropLast)) :=
        set_cons_perm _ 0 _ (by simp)
      have h2 := (h1.trans hpermc).symm
      exact ((kND_of_perm h2 hknd).of_cons)
    have hgetrw : ∀ m, m < (a :: (b :: t).dropLast).length →
        (a :: (b :: t).dropLast).getD m default = (a :: b :: t).getD m default := by
      intro m hm
      conv_rhs => rw [← hdec2]
      rw [getD_append_left _ _ hm]
    rcases siftup_go ((a :: b :: t).getLastD default)
      (a :: (b :: t).dropLast).length (a :: (b :: t).dropLast).length 0
      ((a :: (b :: t).dropLast).set 0 ((a :: b :: t).getLastD default))
      (by omega) (by simp) (by simp)
      (by rw [List.set_set]; exact hknd2)
      (by
        intro j hj0 hjlen hjne hjpar
        rw [List.length_set] at hjlen
        rw [List.set_set]
        have hj1 : ((a :: (b :: t).dropLast).set 0
            ((a :: b :: t).getLastD default)).getD j default =
            (a :: (b :: t).dropLast).getD j default := getD_set_ne _ _ (by omega)
        have hj2 : ((a :: (b :: t).dropLast).set 0
            ((a :: b :: t).getLastD default)).getD ((j - 1) / 2) default =
            (a :: (b :: t).dropLast).getD ((j - 1) / 2) default :=
          getD_set_ne _ _ (by omega)
        rw [hj1, hj2, hgetrw j hjlen, hgetrw _ (by omega)]
        exact hord j hj0 (by
          rw [hrlen] at hjlen
          simp only [List.length_cons] at hjlen ⊢
          omega)
      )
      (by intro hp0; omega) with ⟨h', heq, hlen', hperm, hord'⟩
    rw [List.set_set] at hperm
    have hpermfin : ((a :: b :: t).getD 0 default :: h').Perm (a :: b :: t) := by
      have hroot : (a :: b :: t).getD 0 default = a := rfl
      have h1 : ((a :: (b :: t).dropLast).getD 0 default ::
          (a :: (b :: t).dropLast).set 0 ((a :: b :: t).getLastD default)).Perm
          ((a :: b :: t).getLastD default :: (a :: (b :: t).dropLast)) :=
        set_cons_perm _ 0 _ (by simp)
      have h2 : ((a :: (b :: t).dropLast).getD 0 default :: h').Perm (a :: b :: t) :=
        ((hperm.cons _).trans (h1.trans hpermc))
      simpa using h2
    refine ⟨h', ?_, ?_, hpermfin, hord', (kND_of_perm hpermfin.symm hknd).of_cons, hmin⟩
    · rw [heq]
      rfl
    · rw [hlen', List.length_set, hrlen]

theorem entWF_nil : entWF [] := by
  intro en hen
  exact absurd hen (List.not_mem_nil en)

theorem heapOrd_nil : HeapOrd [] := by
  intro j hj0 hjl
  simp at hjl

theorem kND_subperm {l l' : List Ent} (hs : l.Subperm l') (h : kND l') : kND l := by
  rcases hs with ⟨m, hperm, hsub⟩
  exact kND_of_perm hperm (kND_sublist hsub h)

theorem entKey_entryOf (e : TrafficEvent) : entKey (entryOf e) = evKey e := rfl

theorem subperm_append_same {l₁ l₂ l : List Ent} (h : l₁.Subperm l₂) :
    (l₁ ++ l).Subperm (l₂ ++ l) := (List.subperm_append_right l).mpr h

theorem pushedEntries_push (e : TrafficEvent) (ops : List QueueOp) :
    pushedEntries (QueueOp.push e :: ops) = entryOf e :: pushedEntries ops := rfl

theorem pushedEntries_pop (ops : List QueueOp) :
    pushedEntries (QueueOp.pop :: ops) = pushedEntries ops := rfl

theorem put_spec (q : EventQueue) (e : TrafficEvent) (hord : HeapOrd q.queue)
    (hwf : entWF q.queue) (hknd : kND (q.queue ++ [entryOf e]))
    (hcap : 1 ≤ q.max_size) :
    ∃ q' d, q.put e = .ok (true, q') ∧
      q'.max_size = q.max_size ∧ HeapOrd q'.queue ∧ entWF q'.queue ∧ kND q'.queue ∧
      (d ++ q'.queue).Perm (q.queue ++ [entryOf e]) ∧
      d.length = (if q.max_size ≤ q.queue.length then 1 else 0) ∧
      q'.queue.length =
        (if q.max_size ≤ q.queue.length then q.queue.length else q.queue.length + 1) ∧
      q'.dropped_events = q.dropped_events + d.length ∧
      q'.total_events = q.total_events + 1 ∧
      q'.processed_events = q.processed_events := by
  by_cases hfull : q.max_size ≤ q.queue.length
  · have hqne : q.queue ≠ [] := by
      intro h0
      rw [h0] at hfull
      simp at hfull
      omega
    obtain ⟨h1, hpop, hlen1, hperm1, hord1, hknd1, hmin1⟩ :=
      heappop_spec q.queue hqne hord (kND_sublist (List.sublist_append_left _ _) hknd)
    have hsub1 : h1.Subperm q.queue :=
      (List.Sublist.subperm ((List.Sublist.refl h1).cons _)).trans hperm1.subperm
    have hkndpush : kND (h1 ++ [entryOf e]) :=
      kND_subperm (subperm_append_same hsub1) hknd
    obtain ⟨h2, hpush, hlen2, hperm2, hord2, hknd2⟩ :=
      heappush_spec h1 (entryOf e) hord1 hkndpush
    have hpush' : heappush h1 (e.priority.value, e.timestamp, e) = .ok h2 := hpush
    have hwf2 : entWF h2 := by
      intro en hen
      rcases List.mem_append.mp (hperm2.subset hen) with hh | hh
      · exact hwf en (hperm1.subset (List.mem_cons_of_mem _ hh))
      · rcases List.mem_singleton.mp hh with rfl
        rfl
    have hlpos : 0 < q.queue.length := List.length_pos.mpr hqne
    refine ⟨{ q with
        queue := h2
        dropped_events := q.dropped_events + 1
        total_events := q.total_events + 1 }, [q.queue.getD 0 default], ?_, rfl, hord2, hwf2,
      hknd2, ?_, ?_, ?_, rfl, rfl, rfl⟩
    · simp only [EventQueue.put, if_pos hfull, hpop, hpush']
    · exact (hperm2.cons _).trans (hperm1.append_right [entryOf e])
    · rw [if_pos hfull]
      rfl
    · rw [if_pos hfull]
      show h2.length = q.queue.length
      omega
  · obtain ⟨h2, hpush, hlen2, hperm2, hord2, hknd2⟩ :=
      heappush_spec q.queue (entryOf e) hord hknd
    have hpush' : heappush q.queue (e.priority.value, e.timestamp, e) = .ok h2 := hpush
    have hwf2 : entWF h2 := by
      intro en hen
      rcases List.mem_append.mp (hperm2.subset hen) with hh | hh
      · exact hwf en hh
      · rcases List.mem_singleton.mp hh with rfl
        rfl
    refine ⟨{ q with queue := h2, total_events := q.total_events + 1 }, [], ?_, rfl, hord2,
      hwf2, hknd2, hperm2, ?_, ?_, rfl, rfl, rfl⟩
    · simp only [EventQueue.put, if_neg hfull, hpush']
    · rw [if_neg hfull]
      rfl
    · rw [if_neg hfull]
      show h2.length = q.queue.length + 1
      omega

theorem popOne_nil (q : EventQueue) (h : q.queue = []) : q.popOne = .ok none := by
  unfold EventQueue.popOne
  rw [h]

theorem popOne_spec (q : EventQueue) (hne : q.queue ≠ []) (hord : HeapOrd q.queue)
    (hknd : kND q.queue) (hwf : entWF q.queue) :
    ∃ q', q.popOne = .ok (some ((q.queue.getD 0 default).2.2, q')) ∧
      q'.max_size = q.max_size ∧ HeapOrd q'.queue ∧ kND q'.queue ∧ entWF q'.queue ∧
      (q.queue.getD 0 default :: q'.queue).Perm q.queue ∧
      q'.queue.length = q.queue.length - 1 ∧
      (∀ y ∈ q.queue, keyLe (entKey (q.queue.getD 0 default)) (entKey y)) ∧
      q'.total_events = q.total_events ∧ q'.dropped_events = q.dropped_events ∧
      q'.processed_events = q.processed_events := by
  obtain ⟨h', hpop, hlen, hperm, hord', hknd', hmin⟩ := heappop_spec q.queue hne hord hknd
  have hwf' : entWF h' := by
    intro en hen
    exact hwf en (hperm.subset (List.mem_cons_of_mem _ hen))
  refine ⟨{ q with queue := h' }, ?_, rfl, hord', hknd', hwf', hperm, hlen, hmin, rfl, rfl, rfl⟩
  obtain ⟨a, t, hq⟩ := List.exists_cons_of_ne_nil hne
  unfold EventQueue.popOne
  rw [hq] at hpop ⊢
  rw [hpop]
  rfl

theorem putAll_spec : ∀ (es : List TrafficEvent) (q : EventQueue),
    1 ≤ q.max_size → HeapOrd q.queue → entWF q.queue →
    kND (q.queue ++ es.map entryOf) → q.queue.length ≤ q.max_size →
    ∃ q', q.putAll es = .ok q' ∧ q'.max_size = q.max_size ∧
      HeapOrd q'.queue ∧ entWF q'.queue ∧ kND q'.queue ∧
      q'.queue.Subperm (q.queue ++ es.map entryOf) ∧
      q'.queue.length = min (q.queue.length + es.length) q.max_size ∧
      q'.dropped_events = q.dropped_events +
        (q.queue.length + es.length - min (q.queue.length + es.length) q.max_size) ∧
      q'.total_events = q.total_events + es.length ∧
      q'.processed_events = q.processed_events ∧
      (q.queue.length + es.length ≤ q.max_size →
        q'.queue.Perm (q.queue ++ es.map entryOf))
  | [], q => by
    intro hcap hord hwf hknd hlen
    refine ⟨q, rfl, rfl, hord, hwf, by simpa using hknd, ?_, ?_, ?_, rfl, rfl, ?_⟩
    · simpa using List.Subperm.refl q.queue
    · simp only [List.length_nil, Nat.add_zero]
      omega
    · simp only [List.length_nil, Nat.add_zero]
      omega
    · intro h
      simpa using List.Perm.refl q.queue
  | e :: rest, q => by
    intro hcap hord hwf hknd hlen
    have hknd1 : kND (q.queue ++ [entryOf e]) := by
      refine kND_sublist ?_ hknd
      simp only [List.map_cons]
      exact (List.Sublist.cons₂ _ (List.nil_sublist _)).append_left q.queue
    obtain ⟨q1, d, heqput, hm, hord1, hwf1, hknd1', hpermd, hdlen, hqlen, hdropped, htotal,
      hproc⟩ := put_spec q e hord hwf hknd1 hcap
    have hsubq1 : q1.queue.Subperm (q.queue ++ [entryOf e]) :=
      (List.Sublist.subperm (List.sublist_append_right d q1.queue)).trans hpermd.subperm
    have hassoc : (q.queue ++ [entryOf e]) ++ rest.map entryOf =
        q.queue ++ (e :: rest).map entryOf := by
      simp
    have hkndrec : kND (q1.queue ++ rest.map entryOf) := by
      refine kND_subperm (subperm_append_same hsubq1) ?_
      rw [hassoc]
      exact hknd
    have hcap1 : 1 ≤ q1.max_size := by
      rw [hm]
      exact hcap
    have hq1len : q1.queue.length ≤ q1.max_size := by
      rw [hm]
      split_ifs at hqlen <;> omega
    obtain ⟨q2, heq2, hm2, hord2, hwf2, hknd2, hsub2, hlen2, hdrop2, htot2, hproc2, hperm2⟩ :=
      putAll_spec rest q1 hcap1 hord1 hwf1 hkndrec hq1len
    have heqfin : q.putAll (e :: rest) = .ok q2 := by
      simp only [EventQueue.putAll]
      rw [heqput]
      exact heq2
    refine ⟨q2, heqfin, hm2.trans hm, hord2, hwf2, hknd2, ?_, ?_, ?_, ?_,
      hproc2.trans hproc, ?_⟩
    · refine hsub2.trans ?_
      rw [← hassoc]
      exact subperm_append_same hsubq1
    · rw [hlen2, hm, hqlen]
      simp only [List.length_cons]
      split_ifs with hc <;> omega
    · rw [hdrop2, hm, hqlen, hdropped, hdlen]
      simp only [List.length_cons]
      split_ifs with hc <;> omega
    · rw [htot2, htotal]
      simp only [List.length_cons]
      omega
    · intro hno
      simp only [List.length_cons] at hno
      have hc : ¬ q.max_size ≤ q.queue.length := by omega
      have hd0 : d = [] := List.length_eq_zero.mp (by rw [hdlen, if_neg hc])
      have hq1perm : q1.queue.Perm (q.queue ++ [entryOf e]) := by
        have h0 := hpermd
        rw [hd0] at h0
        simpa using h0
      have h1 : q1.queue.length + rest.length ≤ q1.max_size := by
        rw [hm, hqlen, if_neg hc]
        omega
      refine (hperm2 h1).trans ?_
      rw [← hassoc]
      exact hq1perm.append_right _

theorem get_batch_spec : ∀ (n : Nat) (q : EventQueue), HeapOrd q.queue → kND q.queue →
    entWF q.queue →
    ∃ out q', q.get_batch n = .ok (out, q') ∧ q'.max_size = q.max_size ∧
      HeapOrd q'.queue ∧ kND q'.queue ∧ entWF q'.queue ∧
      (out.map entryOf ++ q'.queue).Perm q.queue ∧
      out.length = min n q.queue.length ∧
      out.Pairwise fun a b => keyLe (evKey a) (evKey b)
  | 0, q => by
    intro hord hknd hwf
    exact ⟨[], q, rfl, rfl, hord, hknd, hwf, List.Perm.refl _, by simp, List.Pairwise.nil⟩
  | n + 1, q => by
    intro hord hknd hwf
    by_cases hne : q.queue = []
    · refine ⟨[], q, ?_, rfl, hord, hknd, hwf, List.Perm.refl _, by simp [hne],
        List.Pairwise.nil⟩
      simp only [EventQueue.get_batch]
      rw [popOne_nil q hne]
    · obtain ⟨q1, hpop, hm1, hord1, hknd1, hwf1, hperm1, hlen1, hmin1, ht1, hd1, hp1⟩ :=
        popOne_spec q hne hord hknd hwf
      obtain ⟨out, q2, heq2, hm2, hord2, hknd2, hwf2, hperm2, hlen2, hsorted⟩ :=
        get_batch_spec n q1 hord1 hknd1 hwf1
      have hrootmem : q.queue.getD 0 default ∈ q.queue :=
        hperm1.subset (List.mem_cons_self _ _)
      have hrooteq : entryOf (q.queue.getD 0 default).2.2 = q.queue.getD 0 default :=
        (hwf _ hrootmem).symm
      have hlpos : 0 < q.queue.length := List.length_pos.mpr hne
      refine ⟨(q.queue.getD 0 default).2.2 :: out, q2, ?_, hm2.trans hm1, hord2, hknd2, hwf2,
        ?_, ?_, ?_⟩
      · simp only [EventQueue.get_batch]
        rw [hpop]
        show Except.map (fun r => ((q.queue.getD 0 default).2.2 :: r.1, r.2))
            (q1.get_batch n) = Except.ok ((q.queue.getD 0 default).2.2 :: out, q2)
        rw [heq2]
        rfl
      · simp only [List.map_cons, List.cons_append, hrooteq]
        exact (hperm2.cons _).trans hperm1
      · simp only [List.length_cons, hlen2, hlen1]
        omega
      · refine List.Pairwise.cons ?_ hsorted
        intro b hb
        have hbmem : entryOf b ∈ q1.queue :=
          hperm2.subset (List.mem_append_left _ (List.mem_map_of_mem _ hb))
        have hble := hmin1 (entryOf b) (hperm1.subset (List.mem_cons_of_mem _ hbmem))
        rw [← hrooteq] at hble
        exact hble

theorem runOps_spec : ∀ (ops : List QueueOp) (q : EventQueue),
    1 ≤ q.max_size → HeapOrd q.queue → entWF q.queue →
    kND (q.queue ++ pushedEntries ops) → q.queue.length ≤ q.max_size →
    ∃ q', q.runOps ops = .ok q' ∧ q'.max_size = q.max_size ∧ q'.queue.length ≤ q.max_size
  | [], q => by
    intro hcap hord hwf hknd hlen
    exact ⟨q, rfl, rfl, hlen⟩
  | QueueOp.push e :: rest, q => by
    intro hcap hord hwf hknd hlen
    rw [pushedEntries_push] at hknd
    have hknd1 : kND (q.queue ++ [entryOf e]) := by
      refine kND_sublist ?_ hknd
      exact (List.Sublist.cons₂ _ (List.nil_sublist _)).append_left q.queue
    obtain ⟨q1, d, heqput, hm, hord1, hwf1, hknd1', hpermd, hdlen, hqlen, hdropped, htotal,
      hproc⟩ := put_spec q e hord hwf hknd1 hcap
    have hsubq1 : q1.queue.Subperm (q.queue ++ [entryOf e]) :=
      (List.Sublist.subperm (List.sublist_append_right d q1.queue)).trans hpermd.subperm
    have hkndrec : kND (q1.queue ++ pushedEntries rest) := by
      refine kND_subperm (subperm_append_same hsubq1) ?_
      have hassoc : (q.queue ++ [entryOf e]) ++ pushedEntries rest =
          q.queue ++ (entryOf e :: pushedEntries rest) := by
        simp
      rw [hassoc]
      exact hknd
    have hcap1 : 1 ≤ q1.max_size := by
      rw [hm]
      exact hcap
    have hq1len : q1.queue.length ≤ q1.max_size := by
      rw [hm]
      split_ifs at hqlen <;> omega
    obtain ⟨q2, heq2, hm2, hlen2⟩ := runOps_spec rest q1 hcap1 hord1 hwf1 hkndrec hq1len
    refine ⟨q2, ?_, hm2.trans hm, ?_⟩
    · simp only [EventQueue.runOps]
      rw [heqput]
      exact heq2
    · rw [← hm]
      exact hlen2
  | QueueOp.pop :: rest, q => by
    intro hcap hord hwf hknd hlen
    rw [pushedEntries_pop] at hknd
    by_cases hne : q.queue = []
    · obtain ⟨q2, heq2, hm2, hlen2⟩ := runOps_spec rest q hcap hord hwf hknd hlen
      refine ⟨q2, ?_, hm2, hlen2⟩
      simp only [EventQueue.runOps]
      rw [popOne_nil q hne]
      exact heq2
    · obtain ⟨q1, hpop, hm1, hord1, hknd1, hwf1, hperm1, hlen1, hmin1, ht1, hd1, hp1⟩ :=
        popOne_spec q hne hord (kND_sublist (List.sublist_append_left _ _) hknd) hwf
      have hkndrec : kND (q1.queue ++ pushedEntries rest) := by
        refine kND_subperm (subperm_append_same ?_) hknd
        exact (List.Sublist.subperm ((List.Sublist.refl q1.queue).cons _)).trans hperm1.subperm
      have hcap1 : 1 ≤ q1.max_size := by
        rw [hm1]
        exact hcap
      have hq1len : q1.queue.length ≤ q1.max_size := by
        rw [hm1]
        omega
      obtain ⟨q2, heq2, hm2, hlen2⟩ := runOps_spec rest q1 hcap1 hord1 hwf1 hkndrec hq1len
      refine ⟨q2, ?_, hm2.trans hm1, ?_⟩
      · simp only [EventQueue.runOps]
        rw [hpop]
        exact heq2
      · rw [← hm1]
        exact hlen2

theorem kND_entries_of_distinct {es : List TrafficEvent}
    (h : (es.map evKey).Pairwise fun a b => a ≠ b) : kND (es.map entryOf) := by
  have h2 := (List.pairwise_map).mp h
  exact (List.pairwise_map).mpr h2

theorem map_event_entryOf (l : List TrafficEvent) :
    (l.map entryOf).map (fun en : Ent => en.2.2) = l := by
  rw [List.map_map]
  exact List.map_id l

set_option maxRecDepth 8000 in
/-- Claim C9: over every sequence of push and pop operations with
pairwise-distinct sort keys (tied keys instead raise, see C10) on a fresh
queue of capacity `C ≥ 1`, the queue size never exceeds `C`; and pushing the
1001 distinct events of `c9events` into a fresh queue of capacity 1000 leaves
the size at 1000 with the dropped counter equal to 1. -/
theorem claim_C9 :
    (∀ (C : Nat) (ops : List QueueOp), 1 ≤ C → kND (pushedEntries ops) →
      ∀ q', EventQueue.runOps { max_size := C } ops = .ok q' → q'.size ≤ C) ∧
    (∃ q', EventQueue.putAll { max_size := 1000 } c9events = .ok q' ∧
      q'.size = 1000 ∧ q'.dropped_events = 1) := by
  constructor
  · intro C ops hC hknd q' heq
    obtain ⟨q2, heq2, hm2, hlen2⟩ :=
      runOps_spec ops { max_size := C } hC heapOrd_nil entWF_nil hknd (Nat.zero_le _)
    have hq : q2 = q' := Except.ok.inj (heq2.symm.trans heq)
    rw [← hq]
    exact hlen2
  · have h1 : c9events.Pairwise fun a b => evKey a ≠ evKey b := by
      unfold c9events
      refine List.Pairwise.map _ ?_ (List.pairwise_lt_range 1001)
      intro a b hab heq
      have h2 : (a : ℚ) = (b : ℚ) := congrArg Prod.snd heq
      exact absurd (Nat.cast_injective h2) (Nat.ne_of_lt hab)
    have hknd9 : kND (c9events.map entryOf) :=
      List.Pairwise.map _ (fun a b hab => hab) h1
    obtain ⟨q', heq, hm, hord, hwf, hknd', hsub, hlen, hdrop, htot, hproc, hperm⟩ :=
      putAll_spec c9events { max_size := 1000 } (by norm_num) heapOrd_nil entWF_nil
        hknd9 (Nat.zero_le _)
    have hlen9 : c9events.length = 1001 := by
      unfold c9events
      rw [List.length_map, List.length_range]
    refine ⟨q', heq, ?_, ?_⟩
    · show q'.queue.length = 1000
      rw [hlen, hlen9]
      rfl
    · rw [hdrop, hlen9]
      rfl

/-- Claim C2: for every sequence of pushes with pairwise-distinct
`(priority_rank, timestamp)` keys into a fresh queue, the pushes succeed and
every popped batch comes out in non-decreasing key order (rank 1 = critical
first, FIFO within a rank); concretely, pushing priorities
[low, critical, medium, critical] with increasing timestamps and popping a
batch of 4 returns the two criticals first in arrival order, then medium,
then low. -/
theorem claim_C2 :
    (∀ es : List TrafficEvent, (es.map evKey).Pairwise (fun a b => a ≠ b) →
      ∃ q, EventQueue.putAll {} es = .ok q ∧
        ∀ n : Nat, ∃ out q', q.get_batch n = .ok (out, q') ∧
          out.Pairwise fun a b => keyLe (evKey a) (evKey b)) ∧
    (∃ q q', EventQueue.putAll {} c2events = .ok q ∧
      q.get_batch 4 = .ok ([mkEv "e2" EventPriority.CRITICAL 2,
        mkEv "e4" EventPriority.CRITICAL 4, mkEv "e3" EventPriority.MEDIUM 3,
        mkEv "e1" EventPriority.LOW 1], q')) := by
  have hmain : ∀ es : List TrafficEvent, (es.map evKey).Pairwise (fun a b => a ≠ b) →
      ∃ q, EventQueue.putAll {} es = .ok q ∧ HeapOrd q.queue ∧ kND q.queue ∧
        entWF q.queue ∧ q.queue.length = min es.length 10000 ∧
        (es.length ≤ 10000 → q.queue.Perm (es.map entryOf)) := by
    intro es hdist
    have hknde : kND (es.map entryOf) := kND_entries_of_distinct hdist
    obtain ⟨q, heq, hm, hord, hwf, hknd', hsub, hlen, hdrop, htot, hproc, hperm⟩ :=
      putAll_spec es {} (by norm_num) heapOrd_nil entWF_nil hknde (Nat.zero_le _)
    refine ⟨q, heq, hord, hknd', hwf, ?_, ?_⟩
    · rw [hlen]
      show min (0 + es.length) 10000 = min es.length 10000
      omega
    · intro hle
      refine hperm ?_
      show 0 + es.length ≤ 10000
      omega
  constructor
  · intro es hdist
    obtain ⟨q, heq, hord, hknd', hwf, hlen, hperm⟩ := hmain es hdist
    refine ⟨q, heq, ?_⟩
    intro n
    obtain ⟨out, q', heqb, hm2, hord2, hknd2, hwf2, hperm2, hlen2, hsorted⟩ :=
      get_batch_spec n q hord hknd' hwf
    exact ⟨out, q', heqb, hsorted⟩
  · have hdistc : (c2events.map evKey).Pairwise (fun a b => a ≠ b) := by decide
    obtain ⟨q, heq, hord, hknd', hwf, hlen, hperm⟩ := hmain c2events hdistc
    have hlen4 : q.queue.length = 4 := by
      rw [hlen]
      rfl
    have hqperm : q.queue.Perm (c2events.map entryOf) := hperm (by decide)
    obtain ⟨out, q2, heqb, hm2, hord2, hknd2, hwf2, hperm2, hlen2, hsorted⟩ :=
      get_batch_spec 4 q hord hknd' hwf
    have houtlen : out.length = 4 := by
      rw [hlen2, hlen4]
      omega
    have hq2len : q2.queue.length = 0 := by
      have hle := hperm2.length_eq
      rw [List.length_append, List.length_map, houtlen, hlen4] at hle
      omega
    have hq2nil : q2.queue = [] := List.length_eq_zero.mp hq2len
    have hpermout : (out.map entryOf).Perm (c2events.map entryOf) := by
      have h0 := hperm2
      rw [hq2nil, List.append_nil] at h0
      exact h0.trans hqperm
    have hkndout : kND (out.map entryOf) :=
      kND_of_perm hpermout.symm (kND_entries_of_distinct hdistc)
    have hnedup : out.Pairwise fun a b => evKey a ≠ evKey b := by
      have h0 : (out.map entryOf).Pairwise fun a b => entKey a ≠ entKey b := hkndout
      have h1 := (List.pairwise_map).mp h0
      exact h1
    have hstrict : out.Pairwise fun a b => keyLt (evKey a) (evKey b) :=
      (hsorted.and hnedup).imp fun hab =>
        keyLt_of_ne_of_not_keyLt (Ne.symm hab.2) hab.1
    have hsortent : (out.map entryOf).Pairwise fun a b => keyLt (entKey a) (entKey b) :=
      (List.pairwise_map).mpr hstrict
    have htgt : ([mkEv "e2" EventPriority.CRITICAL 2, mkEv "e4" EventPriority.CRITICAL 4,
        mkEv "e3" EventPriority.MEDIUM 3, mkEv "e1" EventPriority.LOW 1].map
          entryOf).Pairwise fun a b => keyLt (entKey a) (entKey b) := by
      decide
    have hpermtgt : (out.map entryOf).Perm ([mkEv "e2" EventPriority.CRITICAL 2,
        mkEv "e4" EventPriority.CRITICAL 4, mkEv "e3" EventPriority.MEDIUM 3,
        mkEv "e1" EventPriority.LOW 1].map entryOf) := by
      refine hpermout.trans ?_
      decide
    letI : IsAntisymm Ent fun a b => keyLt (entKey a) (entKey b) :=
      ⟨fun a b h1 h2 => (keyLt_asymm h1 h2).elim⟩
    have hmapeq : out.map entryOf = [mkEv "e2" EventPriority.CRITICAL 2,
        mkEv "e4" EventPriority.CRITICAL 4, mkEv "e3" EventPriority.MEDIUM 3,
        mkEv "e1" EventPriority.LOW 1].map entryOf :=
      List.eq_of_perm_of_sorted hpermtgt hsortent htgt
    have houteq : out = [mkEv "e2" EventPriority.CRITICAL 2,
        mkEv "e4" EventPriority.CRITICAL 4, mkEv "e3" EventPriority.MEDIUM 3,
        mkEv "e1" EventPriority.LOW 1] := by
      have h3 := congrArg (List.map fun en : Ent => en.2.2) hmapeq
      rw [map_event_entryOf, map_event_entryOf] at h3
      exact h3
    refine ⟨q, q2, heq, ?_⟩
    rw [← houteq]
    exact heqb

end EventCollector

end ITS
